import Mathlib

/-
Verification development for the synv2 repository: shallow embeddings of the
in-container gateway (event ring, client fan-out, upstream forwarding), the
supervisor state machine (turn classification, scheduling, recovery
escalation, task enforcement), the control-plane secret wrapper, the
WebSocket relays and the worker-agent resource clamp, together with theorems
checking the specification's claims against these embeddings.
-/

namespace Gateway

/-- Event-history capacity, `EVENT_BUFFER_SIZE` in gateway.js. -/
def EVENT_BUFFER_SIZE : Nat := 50

/-- One step of `bufferAndBroadcast` (gateway.js): push the event onto the
end of `eventBuffer`, and if the length now exceeds `EVENT_BUFFER_SIZE`,
shift off the oldest entry. -/
def bufferAndBroadcast {α : Type} (buf : List α) (e : α) : List α :=
  let b := buf ++ [e]
  if EVENT_BUFFER_SIZE < b.length then b.tail else b

/-- The event buffer after the gateway has normalized and buffered a whole
sequence of upstream events, starting from the empty ring. -/
def ringAfter {α : Type} (events : List α) : List α :=
  events.foldl bufferAndBroadcast []

/-- Downstream frames the gateway can send to a client (gateway.js
`wss.on('connection')` handler and broadcast sites). -/
inductive Frame (α : Type) where
  | history (events : List α)
  | status (agentBusy : Bool) (humanCount : Nat) (supervisorConnected : Bool)
      (ocConnected : Bool)
  | taskStatus
  deriving Repr, DecidableEq

/-- Frames sent, in order, to a freshly connected client (gateway.js
`wss.on('connection')`): the full history ring first, then a status frame,
then a task_status frame when a task status is known. -/
def onClientConnect {α : Type} (buf : List α) (agentBusy : Bool)
    (humanCount : Nat) (supervisorConnected : Bool) (ocConnected : Bool)
    (taskKnown : Bool) : List (Frame α) :=
  [Frame.history buf,
   Frame.status agentBusy humanCount supervisorConnected ocConnected]
  ++ (if taskKnown then [Frame.taskStatus] else [])

end Gateway

namespace WorkerAgent

/-- Effective container resource limits, as computed by
`resolveContainerLimits` in worker-agent.js. -/
structure Limits where
  cpus : ℚ
  memoryMb : ℤ
  hostCpus : ℕ
  hostMemoryMb : ℕ
  deriving Repr, DecidableEq

/-- Shallow embedding of `resolveContainerLimits` (worker-agent.js).
`cpuLen` is `os.cpus().length`, `totalmemBytes` is `os.totalmem()`;
`requestedCpus` / `requestedMemoryMb` are the parsed `INSTANCE_CPUS` /
`INSTANCE_MEMORY_MB` env values, `none` standing for an absent or
non-numeric value (`parseFloat`/`parseInt` returning NaN).  The JS
`Math.floor(hostMemoryMb * 0.9)` is modelled as integer `9 * h / 10`. -/
def resolveContainerLimits (cpuLen : ℕ) (totalmemBytes : ℕ)
    (requestedCpus : Option ℚ) (requestedMemoryMb : Option ℤ) : Limits :=
  let hostCpus : ℕ := max 1 cpuLen
  let hostMemoryMb : ℕ := max 1024 (totalmemBytes / (1024 * 1024))
  let cpus : ℚ := max 1 (min (hostCpus : ℚ)
    (match requestedCpus with
     | some q => q
     | none => (hostCpus : ℚ)))
  let memoryMbCap : ℤ := max 1024 (9 * (hostMemoryMb : ℤ) / 10)
  let memoryMb : ℤ := max 1024 (min memoryMbCap
    (match requestedMemoryMb with
     | some m => m
     | none => memoryMbCap))
  ⟨cpus, memoryMb, hostCpus, hostMemoryMb⟩

end WorkerAgent

namespace Supervisor

/-- Timing and threshold constants from worker-agent.js (supervisor section). -/
def TURN_TIMEOUT_MS : Nat := 15 * 60 * 1000

def MIN_DELAY_MS : Nat := 15000

def IDLE_DELAY_MS : Nat := 300000

def MAX_IDLE_DELAY_MS : Nat := 600000

def BACKOFF_DELAY_MS : Nat := 120000

def MAX_BACKOFF_MS : Nat := 600000

def EMPTY_THRESHOLD : Nat := 3

def RECOVERY_FULL_THRESHOLD : Nat := 5

def RECOVERY_DIRECTIVE_THRESHOLD : Nat := 10

def RECOVERY_RESET_THRESHOLD : Nat := 20

def IDLE_CHARS_THRESHOLD : Nat := 200

def PRODUCTIVE_TOOL_THRESHOLD : Nat := 1

def VERIFY_EVERY_N_TURNS : Nat := 10

/-- Turn classification labels used by the supervisor. -/
inductive Classification where
  | empty
  | productive
  | idle
  | ok
  | err
  deriving Repr, DecidableEq

/-- Shallow embedding of `classifyTurn` (worker-agent.js): priority order is
empty, then productive, then idle, then ok. -/
def classifyTurn (turnTextChars turnToolCount : Nat) : Classification :=
  if turnTextChars = 0 ∧ turnToolCount = 0 then .empty
  else if PRODUCTIVE_TOOL_THRESHOLD ≤ turnToolCount then .productive
  else if turnTextChars < IDLE_CHARS_THRESHOLD ∧ turnToolCount = 0 then .idle
  else .ok

/-- How a turn ended: a `done` event, an `error` event, or the 15-minute
turn timer firing. -/
inductive TurnResult where
  | done
  | errored
  | timeout
  deriving Repr, DecidableEq

/-- Classification of a finished turn in `onTurnEnd` (worker-agent.js): a
timeout is treated as `productive`, an error event as `error`, anything else
goes through `classifyTurn`. -/
def classifyResult (result : TurnResult) (chars tools : Nat) : Classification :=
  match result with
  | .timeout => .productive
  | .errored => .err
  | .done => classifyTurn chars tools

/-- The consecutive-empty and consecutive-idle counters. -/
structure Counters where
  consecutiveEmpty : Nat
  consecutiveIdle : Nat
  deriving Repr, DecidableEq

/-- Shallow embedding of the scheduling switch in `onTurnEnd`
(worker-agent.js): returns the next-turn delay in milliseconds and the
updated counters. -/
def turnDelay : Classification → Counters → Nat × Counters
  | .productive, _ => (MIN_DELAY_MS, ⟨0, 0⟩)
  | .ok, _ => (MIN_DELAY_MS * 2, ⟨0, 0⟩)
  | .idle, c =>
      let idle := c.consecutiveIdle + 1
      (min (IDLE_DELAY_MS * idle) MAX_IDLE_DELAY_MS, ⟨0, idle⟩)
  | .empty, c =>
      let e := c.consecutiveEmpty + 1
      let d :=
        if EMPTY_THRESHOLD ≤ e then
          min (BACKOFF_DELAY_MS * 2 ^ (e - EMPTY_THRESHOLD)) MAX_BACKOFF_MS
        else BACKOFF_DELAY_MS
      (d, ⟨e, c.consecutiveIdle + 1⟩)
  | .err, c => (BACKOFF_DELAY_MS, ⟨c.consecutiveEmpty + 1, c.consecutiveIdle⟩)

end Supervisor

namespace GatewayNet

/-- Fixed upstream session key, `SESSION_KEY` in gateway.js. -/
def SESSION_KEY (projectName : String) : String :=
  "main:webchat:synv2-" ++ projectName

/-- A downstream client of the gateway: its websocket identity and its
identified role, which starts as null and is set by an identify frame.
Roles are the raw strings the client sent. -/
structure Client where
  id : Nat
  role : Option String
  deriving Repr, DecidableEq

/-- Number of clients whose role is `human` (gateway.js `getHumanCount`). -/
def humanCountOf (cs : List Client) : Nat :=
  (cs.filter (fun c => c.role = some "human")).length

/-- Whether some client has role `supervisor`
(gateway.js `isSupervisorConnected`). -/
def supervisorConnectedOf (cs : List Client) : Bool :=
  cs.any (fun c => c.role = some "supervisor")

/-- Gateway shared state relevant to client-message handling: upstream
connection and handshake flags, busy flag, connected clients, and a supply
counter standing in for `crypto.randomUUID()` (each generated UUID is the
next counter value; distinct draws give distinct values). -/
structure GState where
  ocConnected : Bool
  socketOpen : Bool
  agentBusy : Bool
  clients : List Client
  uuidCounter : Nat
  deriving Repr, DecidableEq

/-- Frames the gateway can emit downstream in these handlers. -/
inductive OutFrame where
  | errorF (msg : String)
  | clientChange (humans : Nat) (supervisorConnected : Bool)
  deriving Repr, DecidableEq

/-- Upstream request emitted by `sendToAgent`: a `chat.send` on a session
key with a request id and an idempotency key (both freshly drawn UUIDs). -/
structure ChatSend where
  sessionKey : String
  message : String
  reqId : Nat
  idempotencyKey : Nat
  deriving Repr, DecidableEq

/-- Observable actions of a gateway handler. -/
inductive GAction where
  | upstream (m : ChatSend)
  | reply (clientId : Nat) (frame : OutFrame)
  | broadcastF (frame : OutFrame)
  deriving Repr, DecidableEq

/-- Shallow embedding of `sendToAgent` (gateway.js): refuses unless the
upstream socket is open and the handshake is complete; otherwise sends one
`chat.send` on the fixed session key with fresh UUIDs and sets
`agentBusy`. Returns the updated state, actions, and the delivered flag. -/
def sendToAgent (projectName : String) (st : GState) (text : String) :
    GState × List GAction × Bool :=
  if st.socketOpen ∧ st.ocConnected then
    ({ st with agentBusy := true, uuidCounter := st.uuidCounter + 2 },
     [GAction.upstream
        ⟨SESSION_KEY projectName, text, st.uuidCounter, st.uuidCounter + 1⟩],
     true)
  else (st, [], false)

/-- Shallow embedding of the `user_message` branch of the client message
handler (gateway.js): when `ocConnected` the content is forwarded via
`sendToAgent`; otherwise an error frame is sent back to that sender only
and nothing else changes. -/
def handleUserMessage (projectName : String) (st : GState) (sender : Nat)
    (content : String) : GState × List GAction :=
  if st.ocConnected then
    let r := sendToAgent projectName st content
    (r.1, r.2.1)
  else
    (st, [GAction.reply sender
      (OutFrame.errorF "OpenClaw not connected yet, please wait")])

/-- Role update for the identify handler: sets the role of the client with
the given id. -/
def setRole (cs : List Client) (cid : Nat) (role : String) : List Client :=
  cs.map (fun c => if c.id = cid then { c with role := some role } else c)

/-- Role lookup. -/
def roleOf (cs : List Client) (cid : Nat) : Option String :=
  match cs.find? (fun c => c.id = cid) with
  | some c => c.role
  | none => none

/-- Shallow embedding of the `identify` branch (gateway.js): record the new
role; broadcast a `client_change` frame if and only if the new role is
`human` or the old role was `human`. -/
def handleIdentify (st : GState) (cid : Nat) (role : String) :
    GState × List GAction :=
  let oldRole := roleOf st.clients cid
  let clients' := setRole st.clients cid role
  let st' := { st with clients := clients' }
  if role = "human" ∨ oldRole = some "human" then
    (st', [GAction.broadcastF
      (OutFrame.clientChange (humanCountOf clients')
        (supervisorConnectedOf clients'))])
  else (st', [])

/-- Shallow embedding of the client `close` handler (gateway.js): remove
the client; broadcast a `client_change` frame if and only if the removed
client's role was `human`. -/
def handleClose (st : GState) (cid : Nat) : GState × List GAction :=
  let wasHuman := roleOf st.clients cid = some "human"
  let clients' := st.clients.filter (fun c => ¬ c.id = cid)
  let st' := { st with clients := clients' }
  if wasHuman then
    (st', [GAction.broadcastF
      (OutFrame.clientChange (humanCountOf clients')
        (supervisorConnectedOf clients'))])
  else (st', [])

/-- The idempotency keys among a list of emitted actions. -/
def idempotencyKeys (acts : List GAction) : List Nat :=
  acts.filterMap (fun a =>
    match a with
    | GAction.upstream m => some m.idempotencyKey
    | _ => none)

/-- Sequential processing of a burst of `user_message` frames. -/
def processUserMessages (projectName : String) (st : GState)
    (msgs : List (Nat × String)) : GState × List GAction :=
  match msgs with
  | [] => (st, [])
  | (sender, content) :: rest =>
      let r := handleUserMessage projectName st sender content
      let r' := processUserMessages projectName r.1 rest
      (r'.1, r.2 ++ r'.2)

end GatewayNet

namespace Relay

/-- Close action performed on the operator-client side of the relay. -/
structure CloseAct where
  code : Nat
  reason : List Char
  deriving Repr, DecidableEq

/-- Close-code substitution of the project-chat relay (openclaw-proxy
revision in src/unnamed/part_008, identical in the worker-agent `/gateway`
proxy): forward the upstream code only when it is 1000 or in 3000..4999,
otherwise substitute 1000. -/
def safeCloseCode (code : Nat) : Nat :=
  if (3000 ≤ code ∧ code ≤ 4999) ∨ code = 1000 then code else 1000

/-- Shallow embedding of the relay's upstream `close` handler: when the
client socket is still open, close it with the substituted code and the
reason truncated to 123 units. -/
def onUpstreamClose (clientOpen : Bool) (code : Nat) (reason : List Char) :
    Option CloseAct :=
  if clientOpen then some ⟨safeCloseCode code, reason.take 123⟩ else none

/-- Shallow embedding of the relay's upstream `error` handler: close the
client with 1011 and the prefixed error message truncated to 123 units. -/
def onUpstreamError (errMessage : List Char) : CloseAct :=
  ⟨1011, ("Upstream error: ".data ++ errMessage).take 123⟩

end Relay

namespace Secrets

/-- ASCII code of the separator in the stored `nonce_hex:tag_hex:ct_hex`
string (secrets.ts). -/
def COLON : Nat := 58

/-- Lowercase hex digit character for a nibble, as produced by node's hex
encoding of buffers. -/
def hexDigit (n : Nat) : Nat :=
  if n < 10 then 48 + n else 87 + n

/-- Value of a hex digit character; `none` for anything that is not a hex
digit.  Node\x27s hex decoding is case-insensitive, so both a-f and A-F are
accepted. -/
def hexVal (c : Nat) : Option Nat :=
  if 48 ≤ c ∧ c ≤ 57 then some (c - 48)
  else if 97 ≤ c ∧ c ≤ 102 then some (c - 87)
  else if 65 ≤ c ∧ c ≤ 70 then some (c - 55)
  else none

/-- Hex encoding of one byte: high nibble first. -/
def hexEncodeByte (b : Nat) : List Nat :=
  [hexDigit (b / 16), hexDigit (b % 16)]

/-- Hex encoding of a byte string. -/
def hexEncode : List Nat → List Nat
  | [] => []
  | b :: rest => hexEncodeByte b ++ hexEncode rest

/-- Hex decoding of a character string back to bytes, as the node
`Buffer.from(s, "hex")` does it: case-insensitive, two characters per
byte, stopping at the first pair containing a non-hex character (so an
invalid character or a trailing odd character truncates the result). -/
def hexDecode : List Nat → List Nat
  | c1 :: c2 :: rest =>
      match hexVal c1, hexVal c2 with
      | some hi, some lo => (16 * hi + lo) :: hexDecode rest
      | _, _ => []
  | _ => []

/-- Whether replacing the stored character `c` by `b'` is a pure case flip
of a hex letter: `c` a lowercase hex letter (all hex produced by node is
lowercase) and `b'` its uppercase counterpart.  Such a change decodes to
the same bytes under case-insensitive hex decoding. -/
def isCaseFlip (c b' : Nat) : Bool :=
  decide (97 ≤ c ∧ c ≤ 102 ∧ b' + 32 = c)

/-- Modelled from the spec: the AES-256-GCM primitive used by secrets.ts
comes from node's crypto library and is not part of src/.  Per spec §4.1
it is an authenticated cipher with a per-value 128-bit nonce and a 128-bit
tag whose check fails closed; GCM encrypts in counter mode, so the cipher
is modelled as a keystream XOR.  This is the keystream byte at index i. -/
def keystreamByte (key iv : List Nat) (i : Nat) : Nat :=
  (key.sum + iv.sum + i) % 256

/-- Counter-mode encryption (its own inverse), starting at index i. -/
def ctrEncrypt (key iv : List Nat) : Nat → List Nat → List Nat
  | _, [] => []
  | i, b :: rest =>
      (b ^^^ keystreamByte key iv i) :: ctrEncrypt key iv (i + 1) rest

/-- The 8-byte big-endian length block used inside the modelled tag. -/
def lenBytes8 (n : Nat) : List Nat :=
  [n / 256 ^ 7 % 256, n / 256 ^ 6 % 256, n / 256 ^ 5 % 256, n / 256 ^ 4 % 256,
   n / 256 ^ 3 % 256, n / 256 ^ 2 % 256, n / 256 % 256, n % 256]

/-- XOR-fold of a byte string. -/
def xorAll (l : List Nat) : Nat := l.foldr (· ^^^ ·) 0

/-- Modelled from the spec: the 128-bit (16-byte) authentication tag of the
idealized AEAD.  It binds the nonce and ciphertext (spec 4.1: decryption
fails with IntegrityError on any tag mismatch): the ciphertext length in
the first 8 bytes, an XOR checksum of key, nonce and ciphertext in the
ninth, the nonce length in the tenth, zero padding after. -/
def tagFn (key iv ct : List Nat) : List Nat :=
  lenBytes8 ct.length ++ [xorAll (key ++ iv ++ ct)] ++ [iv.length % 256]
    ++ List.replicate 6 0

/-- Splitting on a separator byte, mirroring JS `String.prototype.split`. -/
def splitOnByte (sep : Nat) : List Nat → List (List Nat)
  | [] => [[]]
  | c :: rest =>
      match splitOnByte sep rest with
      | [] => [[c]]
      | h :: t => if c = sep then [] :: h :: t else (c :: h) :: t

/-- Shallow embedding of `encrypt` (secrets.ts) over the modelled cipher:
the stored value is `iv_hex ":" tag_hex ":" ciphertext_hex`. -/
def encryptS (key iv pt : List Nat) : List Nat :=
  let ct := ctrEncrypt key iv 0 pt
  hexEncode iv ++ [COLON] ++ hexEncode (tagFn key iv ct) ++ [COLON]
    ++ hexEncode ct

/-- Shallow embedding of `decrypt` (secrets.ts): split on colons (JS array
destructuring keeps the first three pieces and ignores the rest; fewer
than three pieces throws on the undefined piece), hex-decode the pieces
with the case-insensitive truncating node decoding, check the
authentication tag, and decrypt.  Every failure is `none` — the spec
treats decryption failure as IntegrityError. -/
def decryptS (key : List Nat) (s : List Nat) : Option (List Nat) :=
  match splitOnByte COLON s with
  | ivHex :: tagHex :: encHex :: _ =>
      if tagFn key (hexDecode ivHex) (hexDecode encHex) = hexDecode tagHex
      then some (ctrEncrypt key (hexDecode ivHex) 0 (hexDecode encHex))
      else none
  | _ => none

end Secrets

namespace Supervisor

/-- Environment snapshot consumed by the prompt builders: file contents,
command outputs and precomputed task-dependent sections, gathered by the
supervisor at prompt time (worker-agent.js). -/
structure PromptEnv where
  nowIso : String
  projectName : String
  prepend : String
  append : String
  shortMem : String
  longMem : String
  plan : String
  processInfo : String
  progress : String
  goalSection : String
  completionInstructions : String
  directivesSection : String
  directivesCompact : String
  taskNote : String
  tmuxOutput : String
  psOutput : String
  diskOutput : String
  memorySection : String
  memoryReminder : String
  answersSection : String
  questionsSection : String
  memoryChanged : Bool
  taskRunning : Bool
  deriving Repr, DecidableEq

/-- Shallow embedding of `buildFullPrompt` (worker-agent.js): the full
context prompt assembled from project identity, memory files, plan,
process info, goal and instruction blocks. -/
def buildFullPrompt (env : PromptEnv) : String :=
  (if env.prepend = "" then "" else env.prepend ++ "\n\n")
  ++ "[" ++ env.nowIso
  ++ "] You are an autonomous AI agent working on project: "
  ++ env.projectName
  ++ ".\nYour workspace is /workspace. You have passwordless sudo, uv, clang-16, gcc, cmake, tmux, Python 3, scikit-learn, numpy, scipy.\n\nThis is a PERSISTENT SESSION — a supervisor sends you periodic prompts to keep you working.\nYour memory files in /workspace/ provide continuity across context compaction.\n\n## Your Short-Term Memory\n"
  ++ env.shortMem
  ++ "\n\n## Your Long-Term Memory\n"
  ++ env.longMem ++ "\n" ++ env.processInfo ++ "\n" ++ env.progress
  ++ "\n\n## Plan\n" ++ env.plan
  ++ "\n\n## INSTRUCTIONS\n\n1. Read your memory files carefully — they contain your progress and decisions.\n2. Check running processes (tmux ls, ps aux). Do NOT restart processes that are already working.\n3. Identify the highest-priority task that isn\x27t already running.\n4. Execute it. **Maximize parallelism** — use tmux sessions and background jobs to use ALL available CPUs.\n5. BEFORE YOUR TURN ENDS: Update /workspace/SHORT_TERM_MEMORY.md and /workspace/LONG_TERM_MEMORY.md.\n\n"
  ++ env.goalSection
  ++ "\n\n## KEY RULES\n- Use sudo freely for package installation\n- Use tmux for long tasks: `tmux new-session -d -s <name> \x27<command>\x27`\n- ALWAYS update memory files before finishing your turn\n- Use ALL available CPU cores — run parallel experiments!\n- Git commit progress regularly\n"
  ++ env.completionInstructions
  ++ "\n\n## ASKING FOR HELP\nIf you need human input, add a question to /workspace/.task.json in the \"questions\" array:\n- priority \"question\": non-blocking, you\x27ll keep working on other things\n- priority \"blocking\": you truly cannot proceed without this answer\nFormat: \x7b \"id\": \"q_<timestamp>\", \"text\": \"...\", \"context\": \"...\", \"priority\": \"question\"|\"blocking\", \"asked_at\": \"<ISO>\", \"answered_at\": null, \"answer\": null \x7d\nRead the current .task.json first, add to the questions array (create it if missing), then write back.\n"
  ++ env.directivesSection
  ++ "\n" ++ (if env.append = "" then "" else "\n" ++ env.append)
  ++ "\nGo."

/-- Fixed pieces of the recovery-directive template
(`buildRecoveryPrompt` in worker-agent.js), named so that containment of
the live outputs can be witnessed. -/
def recoveryPart1 : String := " — You have been unresponsive for "

def recoveryPart2 : String :=
  " turns. This is a fresh re-initialization.\n\nProject: "

def recoveryPart3 : String :=
  "\n\n## LIVE SYSTEM STATE (gathered just now)\n\n### tmux sessions\n```\n"

def recoveryPart4 : String := "\n```\n\n### Running processes\n```\n"

def recoveryPart5 : String := "\n```\n\n### Disk usage\n```\n"

def recoveryPart6 : String := "\n```\n\n## Your Short-Term Memory\n"

def recoveryPart7 : String := "\n\n## Your Long-Term Memory\n"

def recoveryPart8 : String :=
  "\n\n## WHAT YOU MUST DO RIGHT NOW\n\n1. **Check each tmux session**: Run `tmux capture-pane -t <session> -p | tail -20` for EVERY session listed above to see their current output.\n2. **Report findings**: Tell me what each process is doing — is it running, stuck, completed, errored?\n3. **If processes finished**: Collect their output, check results, update memory files, and plan next steps.\n4. **If processes are still running**: Note their progress and estimate completion time.\n5. **If no processes are running**: Review your memory files and start the next task.\n6. **Update /workspace/SHORT_TERM_MEMORY.md** with current status BEFORE your turn ends.\n\nYou MUST take action and produce output. Do not return an empty response."

/-- Shallow embedding of `buildRecoveryPrompt` (worker-agent.js): the
recovery directive carrying the literal RECOVERY CHECK marker and the live
tmux, process and disk outputs gathered just now. -/
def buildRecoveryPrompt (env : PromptEnv) (consecutiveEmpty : Nat) : String :=
  "[" ++ env.nowIso ++ "] " ++ "RECOVERY CHECK" ++ recoveryPart1
  ++ toString consecutiveEmpty ++ recoveryPart2 ++ env.projectName
  ++ "\n" ++ env.taskNote ++ recoveryPart3 ++ env.tmuxOutput
  ++ recoveryPart4 ++ env.psOutput ++ recoveryPart5 ++ env.diskOutput
  ++ recoveryPart6 ++ env.shortMem ++ recoveryPart7 ++ env.longMem
  ++ "\n\n" ++ env.directivesSection ++ recoveryPart8

/-- Shallow embedding of `buildContinuationPrompt` (worker-agent.js). -/
def buildContinuationPrompt (env : PromptEnv) : String :=
  "[" ++ env.nowIso ++ "] Continue working." ++ env.taskNote ++ " "
  ++ (if env.memoryChanged then "Memory files were updated externally."
      else "You already have your memory in context.")
  ++ "\n" ++ env.processInfo ++ "\n" ++ env.progress ++ "\n"
  ++ env.memorySection ++ "\n" ++ env.memoryReminder ++ env.answersSection
  ++ env.questionsSection ++ env.directivesCompact
  ++ "\nKeep making progress. If all experiments are running and stable, look for NEW optimizations to try.\nUpdate memory files before your turn ends."
  ++ (if env.taskRunning then
      "\nWhen task is fully complete, update /workspace/.task.json status to \"completed\"."
      else "")

/-- Shallow embedding of `buildIdleCheckPrompt` (worker-agent.js). -/
def buildIdleCheckPrompt (env : PromptEnv) : String :=
  "[" ++ env.nowIso ++ "] Periodic check-in." ++ env.taskNote
  ++ " Review your running processes and progress:\n" ++ env.processInfo
  ++ "\n" ++ env.progress
  ++ "\n\nIf everything is running fine, just confirm status briefly. If anything needs attention (process died, new results, etc.), take action.\nIf you have idle CPU/RAM capacity, consider launching additional experiments or optimizations."

/-- The kind of prompt `sendPrompt` chose. -/
inductive PromptType where
  | full
  | recoveryReset
  | recoveryDirective
  | recoveryFull
  | idleCheck
  | continuation
  deriving Repr, DecidableEq

/-- Result of the prompt-selection chain in `sendPrompt`. -/
structure PromptChoice where
  promptType : PromptType
  prompt : String
  firstPromptSent : Bool
  consecutiveEmpty : Nat
  consecutiveIdle : Nat
  deriving Repr, DecidableEq

/-- Shallow embedding of the prompt-selection if-chain of `sendPrompt`
(worker-agent.js lines 1109-1138): first prompt is the full context
prompt; with 20+ consecutive empty turns a full re-initialization (reset
counters, full prompt as if fresh); with 10+ a recovery directive; with 5+
the full prompt again; with 3+ consecutive idle turns an idle check;
otherwise a continuation prompt. -/
def choosePrompt (firstPromptSent : Bool) (consecutiveEmpty : Nat)
    (consecutiveIdle : Nat) (env : PromptEnv) : PromptChoice :=
  if ¬ firstPromptSent then
    ⟨.full, buildFullPrompt env, true, consecutiveEmpty, consecutiveIdle⟩
  else if RECOVERY_RESET_THRESHOLD ≤ consecutiveEmpty then
    ⟨.recoveryReset, buildFullPrompt env, true, 0, 0⟩
  else if RECOVERY_DIRECTIVE_THRESHOLD ≤ consecutiveEmpty then
    ⟨.recoveryDirective, buildRecoveryPrompt env consecutiveEmpty, true,
      consecutiveEmpty, consecutiveIdle⟩
  else if RECOVERY_FULL_THRESHOLD ≤ consecutiveEmpty then
    ⟨.recoveryFull, buildFullPrompt env, true, consecutiveEmpty,
      consecutiveIdle⟩
  else if 3 ≤ consecutiveIdle then
    ⟨.idleCheck, buildIdleCheckPrompt env, true, consecutiveEmpty,
      consecutiveIdle⟩
  else
    ⟨.continuation, buildContinuationPrompt env, true, consecutiveEmpty,
      consecutiveIdle⟩

end Supervisor

namespace Supervisor

/-- Task status values in .task.json (worker-agent.js). -/
inductive TaskStatus where
  | running
  | stopped
  | completed
  deriving Repr, DecidableEq

/-- Verification direction in the task goal. -/
inductive Direction where
  | above
  | below
  deriving Repr, DecidableEq

/-- Task goal fields used by verification (worker-agent.js). -/
structure Goal where
  verify_command : Option String
  target_value : Option ℚ
  direction : Option Direction
  deriving Repr, DecidableEq

/-- Task limit fields; `none` models an absent field and, through the JS
truthiness of `||` and `&&`, a zero value behaves like the default. -/
structure TaskLimits where
  max_idle_turns : Option Nat
  max_duration_hours : Option ℚ
  max_turns : Option Nat
  deriving Repr, DecidableEq

/-- Task progress fields used by the checks. -/
structure TaskProgress where
  turns_completed : Nat
  latest_metric : Option ℚ
  deriving Repr, DecidableEq

/-- A task question (id, whether blocking, whether answered). -/
structure Question where
  id : String
  blocking : Bool
  answered : Bool
  deriving Repr, DecidableEq

/-- The .task.json document fields consumed by the supervisor. -/
structure Task where
  status : TaskStatus
  goal : Option Goal
  limits : Option TaskLimits
  started_at : Option ℚ
  progress : TaskProgress
  completed_at : Option ℚ
  completion_reason : Option String
  questions : List Question
  deriving Repr, DecidableEq

/-- A recorded `execSync` invocation: command, timeout in ms, cwd. -/
structure ExecCall where
  cmd : String
  timeoutMs : Nat
  cwd : String
  deriving Repr, DecidableEq

/-- Result of `runVerification`. -/
structure VerifyResult where
  passed : Bool
  output : String
  value : Option ℚ
  deriving Repr, DecidableEq

/-- Shallow embedding of `runVerification` (worker-agent.js): runs the
goal's verify_command with a 30 s timeout in /workspace, parses stdout as
a number and compares against target_value under direction (strictly below
or strictly above, defaulting to below; an absent target never passes).
`exec` models `execSync` (none = the command threw), `parseNum` models JS
`parseFloat` (none = NaN).  Also returns the exec calls made. -/
def runVerification (task : Task) (exec : String → Option String)
    (parseNum : String → Option ℚ) : Option VerifyResult × List ExecCall :=
  match task.goal with
  | none => (none, [])
  | some g =>
    match g.verify_command with
    | none => (none, [])
    | some cmd =>
      let call : ExecCall := ⟨cmd, 30000, "/workspace"⟩
      match exec cmd with
      | none => (some ⟨false, "", none⟩, [call])
      | some output =>
        match parseNum output with
        | none => (some ⟨false, output, none⟩, [call])
        | some value =>
          let dir := g.direction.getD Direction.below
          let passed :=
            match g.target_value with
            | none => false
            | some t =>
                if dir = Direction.below then decide (value < t)
                else decide (t < value)
          (some ⟨passed, output, some value⟩, [call])

/-- Shallow embedding of `completeTask` (worker-agent.js). -/
def completeTask (task : Task) (reason : String) (metric : Option ℚ)
    (nowMs : ℚ) : Task :=
  { task with
      status := TaskStatus.completed,
      completed_at := some nowMs,
      completion_reason := some reason,
      progress :=
        match metric with
        | some v => { task.progress with latest_metric := some v }
        | none => task.progress }

/-- Shallow embedding of `stopTask` (worker-agent.js). -/
def stopTask (task : Task) (reason : String) (nowMs : ℚ) : Task :=
  { task with
      status := TaskStatus.stopped,
      completed_at := some nowMs,
      completion_reason := some reason }

/-- The effective idle-turn limit:
`(task.limits && task.limits.max_idle_turns) || 20`. -/
def maxIdleOf (task : Task) : Nat :=
  match task.limits with
  | some l =>
    match l.max_idle_turns with
    | some n => if n = 0 then 20 else n
    | none => 20
  | none => 20

/-- Whether the max-duration check fires:
`task.limits && task.limits.max_duration_hours && task.started_at` and
elapsed hours at least the limit. -/
def timeLimitHit (task : Task) (nowMs : ℚ) : Bool :=
  match task.limits with
  | some l =>
    match l.max_duration_hours with
    | some h =>
        if h = 0 then false
        else
          match task.started_at with
          | some st => decide (h ≤ (nowMs - st) / (1000 * 60 * 60))
          | none => false
    | none => false
  | none => false

/-- Whether the max-turns check fires. -/
def turnLimitHit (task : Task) : Bool :=
  match task.limits with
  | some l =>
    match l.max_turns with
    | some n =>
        if n = 0 then false
        else decide (n ≤ task.progress.turns_completed)
    | none => false
  | none => false

/-- Observable outcome of `checkTaskCompletion`: its boolean result, the
task document written back to disk (if any), whether memory was archived,
whether the supervisor entered COMPLETED, the exec calls made, and the
updated productive-turns-since-verify counter. -/
structure CheckOutcome where
  stopped : Bool
  savedTask : Option Task
  archived : Bool
  completedState : Bool
  execCalls : List ExecCall
  productiveTurnsSinceVerify : Nat
  deriving Repr, DecidableEq

/-- The C, D, E branches of `checkTaskCompletion` (idle timeout, time
limit, turn limit), after B has possibly updated the metric. -/
def checkLimits (task : Task) (consecutiveIdle : Nat) (nowMs : ℚ)
    (savedB : Option Task) (callsB : List ExecCall) (ptsv : Nat) :
    CheckOutcome :=
  if maxIdleOf task ≤ consecutiveIdle then
    ⟨true, some (stopTask task "idle_timeout" nowMs), true, true, callsB,
      ptsv⟩
  else if timeLimitHit task nowMs then
    ⟨true, some (stopTask task "time_limit" nowMs), true, true, callsB,
      ptsv⟩
  else if turnLimitHit task then
    ⟨true, some (stopTask task "turn_limit" nowMs), true, true, callsB,
      ptsv⟩
  else ⟨false, savedB, false, false, callsB, ptsv⟩

/-- Branch B of `checkTaskCompletion` (periodic verification every 10
productive turns) followed by the limit checks C, D, E. -/
def checkB (task : Task) (consecutiveIdle : Nat) (nowMs : ℚ)
    (exec : String → Option String) (parseNum : String → Option ℚ)
    (ptsv : Nat) (classification : Classification) : CheckOutcome :=
  let ptsvB :=
    if classification = Classification.productive then ptsv + 1 else ptsv
  let hasVerify : Bool :=
    match task.goal with
    | some g => g.verify_command.isSome
    | none => false
  if (decide (classification = Classification.productive) && hasVerify
      && decide (VERIFY_EVERY_N_TURNS ≤ ptsvB)) = true then
    let r := runVerification task exec parseNum
    match r.1 with
    | some res =>
      if res.passed then
        ⟨true, some (completeTask task "verification_passed" res.value
          nowMs), true, true, r.2, 0⟩
      else
        match res.value with
        | some v =>
            let updated := { task with progress :=
              { task.progress with latest_metric := some v } }
            checkLimits updated consecutiveIdle nowMs (some updated) r.2 0
        | none => checkLimits task consecutiveIdle nowMs none r.2 0
    | none => checkLimits task consecutiveIdle nowMs none r.2 0
  else checkLimits task consecutiveIdle nowMs none [] ptsvB

/-- Shallow embedding of `checkTaskCompletion` (worker-agent.js): branch A
(agent-declared completion, working on the document reloaded from disk as
`freshTask`, with verification when a verify_command exists), then branch B
and the limit checks via `checkB`. -/
def checkTaskCompletion (task : Task) (freshTask : Option Task)
    (consecutiveIdle : Nat) (nowMs : ℚ) (exec : String → Option String)
    (parseNum : String → Option ℚ) (ptsv : Nat)
    (classification : Classification) : CheckOutcome :=
  if task.status ≠ TaskStatus.running then ⟨false, none, false, false, [], ptsv⟩
  else
    match freshTask with
    | some ft =>
      if ft.status = TaskStatus.completed then
        let hasVerify : Bool :=
          match ft.goal with
          | some g => g.verify_command.isSome
          | none => false
        if hasVerify then
          let r := runVerification ft exec parseNum
          match r.1 with
          | some res =>
            if res.passed then
              ⟨true, some (completeTask ft "agent_declared_verified"
                res.value nowMs), true, true, r.2, ptsv⟩
            else
              ⟨false, some { ft with status := TaskStatus.running }, false,
                false, r.2, ptsv⟩
          | none =>
              ⟨false, some { ft with status := TaskStatus.running }, false,
                false, r.2, ptsv⟩
        else
          ⟨true, some (completeTask ft "agent_declared" none nowMs), true,
            true, [], ptsv⟩
      else
        checkB task consecutiveIdle nowMs exec parseNum ptsv classification
    | none =>
        checkB task consecutiveIdle nowMs exec parseNum ptsv classification

/-- Concrete task for exercising the completion checks: running, goal
`make check` targeting below 3, limits 2 idle turns / 1 hour / 5 turns. -/
def taskW : Task :=
  ⟨TaskStatus.running, some ⟨some "make check", some 3, none⟩,
    some ⟨some 2, some 1, some 5⟩, some 0, ⟨7, none⟩, none, none, []⟩

/-- The same task as reloaded from disk after the agent declared it done. -/
def ftW : Task := { taskW with status := TaskStatus.completed }

/-- A shell that prints 2 for any command. -/
def execW : String → Option String := fun _ => some "2"

/-- A number parser that reads 2 for any input. -/
def parseW : String → Option ℚ := fun _ => some 2

end Supervisor

namespace Supervisor

/-- Supervisor state-machine states (STATE constants, worker-agent.js). -/
inductive SupState where
  | INIT
  | PROMPTING
  | WAITING
  | DELAY
  | PAUSED
  | NEEDS_INPUT
  | COMPLETED
  deriving Repr, DecidableEq

/-- Supervisor mutable state relevant to the prompt loop: the state
machine state, WS connection flag, last-reported agentBusy and humanCount,
firstPromptSent, the two recovery counters, and a count of prompts
actually sent over the socket (the observable). -/
structure MState where
  state : SupState
  connected : Bool
  agentBusy : Bool
  humanCount : Nat
  firstPromptSent : Bool
  consecutiveEmpty : Nat
  consecutiveIdle : Nat
  promptsSent : Nat
  deriving Repr, DecidableEq

/-- Events delivered to the supervisor loop.  A task-file snapshot
`Option (Option TaskStatus)` is `none` when .task.json is absent,
`some none` when it exists without a status field, and `some (some st)`
otherwise. -/
inductive Event where
  | wsOpen
  | wsClose
  | statusMsg (busy : Bool) (humans : Nat) (oc : Bool)
      (tf : Option (Option TaskStatus))
  | controlPause
  | controlResume (tf : Option (Option TaskStatus))
  | taskPollTick (tf : Option (Option TaskStatus))
  | clientChange (humans : Nat)
  deriving Repr, DecidableEq

/-- Shallow embedding of `sendPrompt` (worker-agent.js), up to the frame
actually sent: refuse in COMPLETED or NEEDS_INPUT; refuse (and only
reschedule) when disconnected or the agent is busy; if the reloaded task
has a defined status other than running, enter COMPLETED and send
nothing; otherwise send one prompt (the recovery-reset path also clears
the counters) and move to WAITING. -/
def sendPromptStep (m : MState) (tf : Option (Option TaskStatus)) :
    MState :=
  if m.state = SupState.COMPLETED ∨ m.state = SupState.NEEDS_INPUT then m
  else if m.connected = false ∨ m.agentBusy = true then m
  else
    let send := fun (m1 : MState) =>
      let m2 :=
        if m1.firstPromptSent = true
            ∧ RECOVERY_RESET_THRESHOLD ≤ m1.consecutiveEmpty then
          { m1 with consecutiveEmpty := 0, consecutiveIdle := 0 }
        else m1
      { m2 with state := SupState.WAITING, firstPromptSent := true, promptsSent := m2.promptsSent + 1 }
    match tf with
    | some (some st) =>
      if st = TaskStatus.running then send m
      else if m.state ≠ SupState.COMPLETED then
        { m with state := SupState.COMPLETED }
      else m
    | some none => send m
    | none => send m

/-- One step of the supervisor loop (worker-agent.js handlers): WS
open/close, gateway status message, supervisor_control pause/resume, the
15 s task poll, and client_change. -/
def step (m : MState) (e : Event) : MState :=
  match e with
  | Event.wsOpen => { m with connected := true }
  | Event.wsClose =>
    let m1 := { m with connected := false, agentBusy := false }
    let m2 :=
      if m1.state ≠ SupState.COMPLETED ∧ m1.state ≠ SupState.NEEDS_INPUT
      then { m1 with state := SupState.INIT } else m1
    { m2 with firstPromptSent := false }
  | Event.statusMsg busy humans oc tf =>
    let m1 := { m with agentBusy := busy, humanCount := humans }
    if m1.state = SupState.COMPLETED then m1
    else if m1.state = SupState.INIT ∧ busy = false ∧ humans = 0
        ∧ oc = true then
      sendPromptStep m1 tf
    else if m1.state = SupState.INIT ∧ (busy = true ∨ 0 < humans) then
      { m1 with state := SupState.PAUSED }
    else m1
  | Event.controlPause => { m with state := SupState.PAUSED }
  | Event.controlResume tf =>
    let m1 := { m with consecutiveEmpty := 0, consecutiveIdle := 0 }
    if m1.state = SupState.PAUSED ∨ m1.state = SupState.COMPLETED
        ∨ m1.state = SupState.NEEDS_INPUT then
      if m1.agentBusy = true then { m1 with state := SupState.WAITING }
      else sendPromptStep m1 tf
    else m1
  | Event.taskPollTick tf =>
    if m.state ≠ SupState.COMPLETED ∧ m.state ≠ SupState.NEEDS_INPUT then m
    else
      match tf with
      | some (some st) =>
        if st = TaskStatus.running then
          let m1 := { m with consecutiveEmpty := 0, consecutiveIdle := 0, firstPromptSent := false }
          if 0 < m1.humanCount then { m1 with state := SupState.PAUSED }
          else sendPromptStep m1 tf
        else m
      | some none => m
      | none =>
        let m1 := { m with consecutiveEmpty := 0, consecutiveIdle := 0, firstPromptSent := false }
        if 0 < m1.humanCount then { m1 with state := SupState.PAUSED }
        else sendPromptStep m1 tf
  | Event.clientChange humans =>
    let oldCount := m.humanCount
    let m1 := { m with humanCount := humans }
    if 0 < humans ∧ oldCount = 0 then
      if m1.state = SupState.DELAY then { m1 with state := SupState.PAUSED }
      else if m1.state = SupState.NEEDS_INPUT then
        { m1 with state := SupState.PAUSED }
      else m1
    else m1

/-- A supervisor sitting in COMPLETED, connected, agent idle, no humans. -/
def m0 : MState := ⟨SupState.COMPLETED, true, false, 0, true, 5, 2, 3⟩

end Supervisor

namespace Gateway

theorem ringAfter_append_one {α : Type} (es : List α) (e : α) :
    ringAfter (es ++ [e]) = bufferAndBroadcast (ringAfter es) e := by
  simp [ringAfter]

theorem ringAfter_eq_drop {α : Type} (es : List α) :
    ringAfter es = es.drop (es.length - EVENT_BUFFER_SIZE) := by
  induction es using List.reverseRecOn with
  | nil => simp [ringAfter]
  | append_singleton es e ih =>
      rw [ringAfter_append_one, ih]
      by_cases h : es.length < EVENT_BUFFER_SIZE
      · have h0 : es.length - EVENT_BUFFER_SIZE = 0 := by omega
        have h1 : (es ++ [e]).length - EVENT_BUFFER_SIZE = 0 := by
          rw [List.length_append, List.length_singleton]
          omega
        have hcond : ¬ EVENT_BUFFER_SIZE < (es ++ [e]).length := by
          rw [List.length_append, List.length_singleton]
          omega
        rw [h0, h1, List.drop_zero, List.drop_zero]
        simp only [bufferAndBroadcast, if_neg hcond]
      · push_neg at h
        have hlen : (es.drop (es.length - EVENT_BUFFER_SIZE)).length
            = EVENT_BUFFER_SIZE := by
          rw [List.length_drop]
          omega
        have hcond : EVENT_BUFFER_SIZE
            < (es.drop (es.length - EVENT_BUFFER_SIZE) ++ [e]).length := by
          rw [List.length_append, List.length_singleton, hlen]
          omega
        simp only [bufferAndBroadcast, if_pos hcond]
        have hE : 0 < EVENT_BUFFER_SIZE := by norm_num [EVENT_BUFFER_SIZE]
        have hk : es.length - EVENT_BUFFER_SIZE + 1 ≤ es.length := by omega
        have hsucc : (es ++ [e]).length - EVENT_BUFFER_SIZE
            = es.length - EVENT_BUFFER_SIZE + 1 := by
          rw [List.length_append, List.length_singleton]
          omega
        have hdd : (es.drop (es.length - EVENT_BUFFER_SIZE)).drop 1
            = es.drop (es.length - EVENT_BUFFER_SIZE + 1) := by
          rw [List.drop_drop, Nat.add_comm]
        rw [hsucc, List.drop_append_of_le_length hk, ← hdd]
        rcases hne : es.drop (es.length - EVENT_BUFFER_SIZE) with _ | ⟨a, t⟩
        · exfalso
          have := hlen
          rw [hne] at this
          simp [EVENT_BUFFER_SIZE] at this
        · simp [hne]

theorem ringAfter_length {α : Type} (es : List α) :
    (ringAfter es).length = min es.length EVENT_BUFFER_SIZE := by
  rw [ringAfter_eq_drop, List.length_drop]
  omega

/-- Claim C1: every normalized event is appended to the history ring with the
oldest entry evicted exactly when the ring would exceed 50 entries, so after
any sequence of N events the ring holds exactly the most recent min(N, 50)
events in arrival order; and a client connecting at that point receives, as
its first frame, a history array equal to that ring. -/
theorem history_ring_holds_last_fifty {α : Type} (events : List α)
    (agentBusy : Bool) (humanCount : Nat) (supervisorConnected : Bool)
    (ocConnected : Bool) (taskKnown : Bool) :
    ringAfter events = events.drop (events.length - 50)
    ∧ (ringAfter events).length = min events.length 50
    ∧ (∀ (buf : List α) (e : α), bufferAndBroadcast buf e
        = if 50 < buf.length + 1 then (buf ++ [e]).tail else buf ++ [e])
    ∧ (onClientConnect (ringAfter events) agentBusy humanCount
        supervisorConnected ocConnected taskKnown).head?
      = some (Frame.history (events.drop (events.length - 50))) := by
  refine ⟨ringAfter_eq_drop events, ringAfter_length events, ?_, ?_⟩
  · intro buf e
    simp [bufferAndBroadcast, EVENT_BUFFER_SIZE]
  · simp [onClientConnect, ringAfter_eq_drop events, EVENT_BUFFER_SIZE]

end Gateway

namespace WorkerAgent

/-- Claim C9: the worker agent clamps requested limits to
cpus = max(1, min(hostCpus, requested)) with the host count as default, and
memoryMb = max(1024, min(max(1024, floor(hostMemoryMb * 0.9)), requested));
the applied values never exceed host capability, keep the roughly-10% memory
headroom cap, and never drop below 1 CPU and 1 GiB. -/
theorem container_limits_clamped (cpuLen totalmemBytes : ℕ)
    (requestedCpus : Option ℚ) (requestedMemoryMb : Option ℤ) :
    let L : Limits := resolveContainerLimits cpuLen totalmemBytes
      requestedCpus requestedMemoryMb
    L.cpus = max 1 (min (L.hostCpus : ℚ) (requestedCpus.getD (L.hostCpus : ℚ)))
    ∧ L.memoryMb = max 1024 (min (max 1024 (9 * (L.hostMemoryMb : ℤ) / 10))
        (requestedMemoryMb.getD (max 1024 (9 * (L.hostMemoryMb : ℤ) / 10))))
    ∧ (requestedCpus = none → L.cpus = (L.hostCpus : ℚ))
    ∧ (requestedMemoryMb = none
        → L.memoryMb = max 1024 (9 * (L.hostMemoryMb : ℤ) / 10))
    ∧ L.cpus ≤ (L.hostCpus : ℚ)
    ∧ 1 ≤ L.cpus
    ∧ L.memoryMb ≤ (L.hostMemoryMb : ℤ)
    ∧ L.memoryMb ≤ max 1024 (9 * (L.hostMemoryMb : ℤ) / 10)
    ∧ 1024 ≤ L.memoryMb := by
  intro L
  have hc1 : (1 : ℕ) ≤ max 1 cpuLen := le_max_left _ _
  have hm1 : (1024 : ℕ) ≤ max 1024 (totalmemBytes / (1024 * 1024)) :=
    le_max_left _ _
  have hhostC : (1 : ℚ) ≤ ((max 1 cpuLen : ℕ) : ℚ) := by exact_mod_cast hc1
  have hhostM : (1024 : ℤ) ≤ ((max 1024 (totalmemBytes / (1024 * 1024)) : ℕ) : ℤ) := by
    exact_mod_cast hm1
  constructor
  · cases requestedCpus <;> rfl
  constructor
  · cases requestedMemoryMb <;> rfl
  constructor
  · intro h
    subst h
    show max 1 (min _ _) = _
    rw [min_self]
    exact max_eq_right hhostC
  constructor
  · intro h
    subst h
    show max 1024 (min _ _) = _
    rw [min_self]
    exact max_eq_right (le_max_left _ _)
  constructor
  · show max 1 (min _ _) ≤ _
    exact max_le hhostC (min_le_left _ _)
  constructor
  · exact le_max_left _ _
  constructor
  · show max 1024 (min _ _) ≤ _
    refine max_le hhostM (le_trans (min_le_left _ _) (max_le hhostM ?_))
    have h9 : 9 * ((max 1024 (totalmemBytes / (1024 * 1024)) : ℕ) : ℤ)/ 10
        ≤ ((max 1024 (totalmemBytes / (1024 * 1024)) : ℕ) : ℤ) := by
      omega
    exact h9
  constructor
  · show max 1024 (min _ _) ≤ _
    refine max_le ?_ (min_le_left _ _)
    exact le_max_left _ _
  · exact le_max_left _ _

end WorkerAgent

namespace Supervisor

/-- Claim C2: turns are classified `empty` iff chars = 0 and tools = 0,
otherwise `productive` iff tools ≥ 1, otherwise `idle` iff chars < 200,
otherwise `ok`; a turn timeout classifies as `productive` and an error
event as `error`; and the next delay is 15 s for `productive` (resetting
both counters), 30 s for `ok`, min(5 min × idleCount, 10 min) for `idle`,
2 min for `empty` while the consecutive-empty counter is below 3 and
min(2 min · 2^(empty − 3), 10 min) at or above 3, and 2 min for `error`. -/
theorem turn_classification_and_scheduling (chars tools : Nat) (c : Counters) :
    (classifyTurn chars tools = .empty ↔ chars = 0 ∧ tools = 0)
    ∧ (classifyTurn chars tools = .productive ↔ 1 ≤ tools)
    ∧ (classifyTurn chars tools = .idle ↔ tools = 0 ∧ 0 < chars ∧ chars < 200)
    ∧ (classifyTurn chars tools = .ok ↔ tools = 0 ∧ 200 ≤ chars)
    ∧ classifyResult .timeout chars tools = .productive
    ∧ classifyResult .errored chars tools = .err
    ∧ classifyResult .done chars tools = classifyTurn chars tools
    ∧ turnDelay .productive c = (15000, ⟨0, 0⟩)
    ∧ (turnDelay .ok c).1 = 30000
    ∧ (turnDelay .idle c).1
        = min (300000 * (c.consecutiveIdle + 1)) 600000
    ∧ (turnDelay .empty c).1
        = (if c.consecutiveEmpty + 1 < 3 then 120000
           else min (120000 * 2 ^ (c.consecutiveEmpty + 1 - 3)) 600000)
    ∧ (turnDelay .empty c).2
        = ⟨c.consecutiveEmpty + 1, c.consecutiveIdle + 1⟩
    ∧ (turnDelay .err c).1 = 120000 := by
  refine ⟨?_, ?_, ?_, ?_, rfl, rfl, rfl, rfl, rfl, rfl, ?_, rfl, rfl⟩
  · unfold classifyTurn
    split_ifs with h1 h2 h3 <;>
      simp_all [PRODUCTIVE_TOOL_THRESHOLD, IDLE_CHARS_THRESHOLD]
  · unfold classifyTurn
    split_ifs with h1 h2 h3 <;>
      simp_all [PRODUCTIVE_TOOL_THRESHOLD, IDLE_CHARS_THRESHOLD] <;> omega
  · unfold classifyTurn
    split_ifs with h1 h2 h3 <;>
      simp_all [PRODUCTIVE_TOOL_THRESHOLD, IDLE_CHARS_THRESHOLD] <;> omega
  · unfold classifyTurn
    split_ifs with h1 h2 h3 <;>
      simp_all [PRODUCTIVE_TOOL_THRESHOLD, IDLE_CHARS_THRESHOLD] <;> omega
  · show (if 3 ≤ c.consecutiveEmpty + 1 then _ else _) = _
    rcases Nat.lt_or_ge (c.consecutiveEmpty + 1) 3 with h | h
    · rw [if_neg (by omega), if_pos h]
      rfl
    · rw [if_pos h, if_neg (by omega)]
      rfl

end Supervisor

namespace GatewayNet

theorem handleUserMessage_counter_le (projectName : String) (st : GState)
    (sender : Nat) (content : String) :
    st.uuidCounter ≤ (handleUserMessage projectName st sender content).1.uuidCounter := by
  unfold handleUserMessage sendToAgent
  split_ifs <;> simp <;> omega

theorem handleUserMessage_keys_bounds (projectName : String) (st : GState)
    (sender : Nat) (content : String) :
    ∀ k ∈ idempotencyKeys (handleUserMessage projectName st sender content).2,
      st.uuidCounter ≤ k
      ∧ k < (handleUserMessage projectName st sender content).1.uuidCounter := by
  unfold handleUserMessage sendToAgent
  split_ifs <;> simp [idempotencyKeys] <;> omega

theorem processUserMessages_keys (projectName : String) (st : GState)
    (msgs : List (Nat × String)) :
    st.uuidCounter ≤ (processUserMessages projectName st msgs).1.uuidCounter
    ∧ (∀ k ∈ idempotencyKeys (processUserMessages projectName st msgs).2,
        st.uuidCounter ≤ k
        ∧ k < (processUserMessages projectName st msgs).1.uuidCounter)
    ∧ (idempotencyKeys (processUserMessages projectName st msgs).2).Pairwise (· < ·) := by
  induction msgs generalizing st with
  | nil => simp [processUserMessages, idempotencyKeys]
  | cons m rest ih =>
      obtain ⟨sender, content⟩ := m
      have hmono := handleUserMessage_counter_le projectName st sender content
      have hbounds := handleUserMessage_keys_bounds projectName st sender content
      set st1 := (handleUserMessage projectName st sender content).1 with hst1
      obtain ⟨ihmono, ihbounds, ihpw⟩ := ih st1
      have hkeys : idempotencyKeys (processUserMessages projectName st ((sender, content) :: rest)).2
          = idempotencyKeys (handleUserMessage projectName st sender content).2
            ++ idempotencyKeys (processUserMessages projectName st1 rest).2 := by
        simp [processUserMessages, idempotencyKeys, List.filterMap_append]
      have hres1 : (processUserMessages projectName st ((sender, content) :: rest)).1
          = (processUserMessages projectName st1 rest).1 := by
        simp [processUserMessages]
      refine ⟨?_, ?_, ?_⟩
      · rw [hres1]
        exact le_trans hmono ihmono
      · intro k hk
        rw [hkeys] at hk
        rw [hres1]
        rcases List.mem_append.mp hk with h | h
        · obtain ⟨h1, h2⟩ := hbounds k h
          exact ⟨h1, lt_of_lt_of_le h2 ihmono⟩
        · obtain ⟨h1, h2⟩ := ihbounds k h
          exact ⟨le_trans hmono h1, h2⟩
      · rw [hkeys]
        refine List.pairwise_append.mpr ⟨?_, ihpw, ?_⟩
        · -- the first handler emits at most one key
          unfold handleUserMessage sendToAgent
          split_ifs <;> simp [idempotencyKeys]
        · intro a ha b hb
          obtain ⟨_, ha2⟩ := hbounds a ha
          obtain ⟨hb1, _⟩ := ihbounds b hb
          exact lt_of_lt_of_le ha2 hb1

/-- Counterexample for claim C6 as stated: when the upstream handshake is
not complete, the error frame sent back to the sender reads "OpenClaw not
connected yet, please wait", not "engine not connected yet, please wait". -/
theorem user_message_error_text_differs :
    (handleUserMessage "p" ⟨false, false, false, [⟨0, none⟩], 0⟩ 0 "hi").2
      = [GAction.reply 0
          (OutFrame.errorF "OpenClaw not connected yet, please wait")]
    ∧ (OutFrame.errorF "OpenClaw not connected yet, please wait"
        ≠ OutFrame.errorF "engine not connected yet, please wait") := by
  constructor
  · rfl
  · decide

/-- Claim C6 (amended: the error text reads "OpenClaw not connected yet,
please wait"): a `user_message` with the handshake complete is forwarded
upstream as a single `chat.send` on the fixed session key with a freshly
drawn idempotency nonce and sets `agentBusy`; bursts of messages get
pairwise-distinct nonces; with the handshake incomplete, the gateway
replies only to the sender with the error frame, sends nothing upstream,
and leaves its state unchanged (no queueing). -/
theorem user_message_forwarding (projectName : String) (st : GState)
    (sender : Nat) (content : String) :
    (st.ocConnected = true → st.socketOpen = true →
      handleUserMessage projectName st sender content
        = ({ st with agentBusy := true, uuidCounter := st.uuidCounter + 2 },
           [GAction.upstream
             ⟨"main:webchat:synv2-" ++ projectName, content,
              st.uuidCounter, st.uuidCounter + 1⟩]))
    ∧ (st.ocConnected = false →
        handleUserMessage projectName st sender content
          = (st, [GAction.reply sender
              (OutFrame.errorF "OpenClaw not connected yet, please wait")]))
    ∧ (∀ msgs : List (Nat × String),
        (idempotencyKeys (processUserMessages projectName st msgs).2).Nodup) := by
  refine ⟨?_, ?_, ?_⟩
  · intro hoc hopen
    unfold handleUserMessage sendToAgent
    rw [if_pos hoc, if_pos ⟨hopen, hoc⟩]
    simp [SESSION_KEY]
  · intro hoc
    unfold handleUserMessage
    rw [if_neg (by simp [hoc])]
  · intro msgs
    have h := (processUserMessages_keys projectName st msgs).2.2
    exact h.imp (fun hlt => Nat.ne_of_lt hlt)

/-- Witness for the amended C6 theorem at concrete inputs: the connected
case forwards upstream with fresh nonces, and a concrete two-message burst
gets distinct idempotency keys. -/
theorem user_message_forwarding_witness :
    handleUserMessage "p" ⟨true, true, false, [], 5⟩ 0 "go"
      = (⟨true, true, true, [], 7⟩,
         [GAction.upstream ⟨"main:webchat:synv2-p", "go", 5, 6⟩])
    ∧ (idempotencyKeys
        (processUserMessages "p" ⟨true, true, false, [], 5⟩
          [(0, "a"), (1, "b")]).2).Nodup :=
  ⟨(user_message_forwarding "p" ⟨true, true, false, [], 5⟩ 0 "go").1 rfl rfl,
   (user_message_forwarding "p" ⟨true, true, false, [], 5⟩ 0 "go").2.2
     [(0, "a"), (1, "b")]⟩

/-- Counterexample for claim C7 as stated: a fresh client identifying as
`supervisor` flips `supervisorConnected` from false to true, yet the
gateway broadcasts nothing (the identify handler only broadcasts when a
human role is involved). -/
theorem supervisor_identify_no_broadcast :
    supervisorConnectedOf ([⟨0, none⟩] : List Client) = false
    ∧ supervisorConnectedOf
        (handleIdentify ⟨true, true, false, [⟨0, none⟩], 0⟩ 0 "supervisor").1.clients
        = true
    ∧ (handleIdentify ⟨true, true, false, [⟨0, none⟩], 0⟩ 0 "supervisor").2 = [] := by
  refine ⟨rfl, ?_, ?_⟩ <;> decide

/-- Claim C7 (amended: the gateway broadcasts a `client_change` frame
exactly when the identify or disconnect involves the `human` role — a
supervisor identify or disconnect changes `supervisorConnected` without a
broadcast): whenever a broadcast happens, its fields equal the human count
and supervisor flag computed over the client set at that moment. -/
theorem client_change_broadcasts (st : GState) (cid : Nat) (role : String) :
    (let r := handleIdentify st cid role
     if role = "human" ∨ roleOf st.clients cid = some "human" then
       r.2 = [GAction.broadcastF
         (OutFrame.clientChange (humanCountOf r.1.clients)
           (supervisorConnectedOf r.1.clients))]
     else r.2 = [])
    ∧ (let r := handleClose st cid
       if roleOf st.clients cid = some "human" then
         r.2 = [GAction.broadcastF
           (OutFrame.clientChange (humanCountOf r.1.clients)
             (supervisorConnectedOf r.1.clients))]
       else r.2 = []) := by
  constructor
  · show (if _ then _ else _)
    split_ifs with h
    · simp only [handleIdentify, if_pos h]
    · simp only [handleIdentify, if_neg h]
  · show (if _ then _ else _)
    split_ifs with h
    · simp only [handleClose, if_pos h]
    · simp only [handleClose, if_neg h]

end GatewayNet

namespace Relay

/-- Claim C8: the relay forwards an upstream close code c exactly when
c = 1000 or 3000 ≤ c ≤ 4999 and substitutes 1000 otherwise, truncating the
reason to at most 123 units; an upstream error closes the client side with
code 1011 and a truncated prefixed message. -/
theorem relay_close_code_mapping (code : Nat) (reason errMessage : List Char) :
    onUpstreamClose true code reason
      = some ⟨if code = 1000 ∨ (3000 ≤ code ∧ code ≤ 4999) then code else 1000,
              reason.take 123⟩
    ∧ (∀ act ∈ onUpstreamClose true code reason,
        act.reason.length ≤ 123 ∧ act.reason.IsPrefix reason)
    ∧ (onUpstreamError errMessage).code = 1011
    ∧ (onUpstreamError errMessage).reason.length ≤ 123
    ∧ onUpstreamClose false code reason = none := by
  refine ⟨?_, ?_, rfl, ?_, rfl⟩
  · simp only [onUpstreamClose, if_pos trivial, safeCloseCode]
    by_cases h : (3000 ≤ code ∧ code ≤ 4999) ∨ code = 1000
    · rw [if_pos h, if_pos (Or.symm h)]
    · rw [if_neg h, if_neg (fun hc => h (Or.symm hc))]
  · intro act hact
    simp only [onUpstreamClose, if_pos trivial, Option.mem_def,
      Option.some.injEq] at hact
    subst hact
    exact ⟨by simpa using List.length_take_le 123 reason,
      List.take_prefix 123 reason⟩
  · simpa [onUpstreamError] using
      List.length_take_le 123 ("Upstream error: ".data ++ errMessage)

/-- Witness for the C8 theorem: a non-forwardable code 1006 is replaced by
1000, an in-range code 4002 is forwarded. -/
theorem relay_close_code_mapping_witness :
    onUpstreamClose true 1006 "gone".data = some ⟨1000, "gone".data⟩
    ∧ onUpstreamClose true 4002 [] = some ⟨4002, []⟩ := by
  have h1 := (relay_close_code_mapping 1006 "gone".data []).1
  have h2 := (relay_close_code_mapping 4002 [] []).1
  refine ⟨?_, ?_⟩
  · rw [h1]
    decide
  · rw [h2]
    decide

end Relay

namespace Secrets

theorem hexDigit_lt (n : Nat) (h : n < 16) :
    (n < 10 → hexDigit n = 48 + n) ∧ (10 ≤ n → hexDigit n = 87 + n) := by
  unfold hexDigit
  constructor
  · intro h10
    rw [if_pos h10]
  · intro h10
    rw [if_neg (by omega)]

theorem hexVal_hexDigit (n : Nat) (h : n < 16) :
    hexVal (hexDigit n) = some n := by
  unfold hexVal hexDigit
  split_ifs <;> (try rfl) <;> (try omega) <;>
    (first | (congr 1; omega) | omega)

theorem hexVal_lt {c v : Nat} (h : hexVal c = some v) : v < 16 := by
  unfold hexVal at h
  split_ifs at h <;> simp_all <;> omega

theorem hexDigit_inj {m n : Nat} (hm : m < 16) (hn : n < 16)
    (h : hexDigit m = hexDigit n) : m = n := by
  unfold hexDigit at h
  split_ifs at h <;> omega

/-- The uppercase counterpart of a hex letter digit has the same value
under the case-insensitive decoding. -/
theorem hexVal_upper (n b2 : Nat) (h10 : 10 ≤ n) (h16 : n < 16)
    (hb : b2 + 32 = hexDigit n) : hexVal b2 = some n := by
  unfold hexDigit at hb
  rw [if_neg (by omega)] at hb
  unfold hexVal
  rw [if_neg (by omega), if_neg (by omega), if_pos (by omega)]
  congr 1
  omega

/-- The only characters decoding to a value are its lowercase digit and,
for letter values, the uppercase counterpart. -/
theorem hexVal_some_cases {n b' : Nat} (hn : n < 16)
    (hb : hexVal b' = some n) :
    b' = hexDigit n ∨ (10 ≤ n ∧ b' + 32 = hexDigit n) := by
  unfold hexVal at hb
  unfold hexDigit
  split_ifs at hb with h1 h2 h3
  · left
    have hv := Option.some.inj hb
    rw [if_pos (by omega)]
    omega
  · left
    have hv := Option.some.inj hb
    rw [if_neg (by omega)]
    omega
  · right
    have hv := Option.some.inj hb
    refine ⟨by omega, ?_⟩
    rw [if_neg (by omega)]
    omega

theorem hexDigit_ne_colon (n : Nat) (h : n < 16) : hexDigit n ≠ COLON := by
  unfold hexDigit COLON
  split_ifs <;> omega

theorem mem_hexEncode_ne_colon {l : List Nat} (hl : ∀ b ∈ l, b < 256)
    {c : Nat} (hc : c ∈ hexEncode l) : c ≠ COLON := by
  induction l with
  | nil => simp [hexEncode] at hc
  | cons b rest ih =>
      simp only [hexEncode, hexEncodeByte, List.cons_append, List.nil_append,
        List.mem_cons] at hc
      have hb : b < 256 := hl b (by simp)
      rcases hc with rfl | rfl | hc
      · exact hexDigit_ne_colon _ (by omega)
      · exact hexDigit_ne_colon _ (by omega)
      · exact ih (fun x hx => hl x (by simp [hx])) hc

theorem hexEncode_length (l : List Nat) :
    (hexEncode l).length = 2 * l.length := by
  induction l with
  | nil => rfl
  | cons b rest ih =>
      simp [hexEncode, hexEncodeByte, ih]
      omega

/-- Every character of a hex encoding is a valid hex digit. -/
theorem mem_hexEncode_isSome {l : List Nat} (hl : ∀ b ∈ l, b < 256)
    {c : Nat} (hc : c ∈ hexEncode l) : (hexVal c).isSome = true := by
  induction l with
  | nil => simp [hexEncode] at hc
  | cons b rest ih =>
      simp only [hexEncode, hexEncodeByte, List.cons_append, List.nil_append,
        List.mem_cons] at hc
      have hb : b < 256 := hl b (by simp)
      rcases hc with rfl | rfl | hc
      · rw [hexVal_hexDigit _ (by omega)]
        rfl
      · rw [hexVal_hexDigit _ (by omega)]
        rfl
      · exact ih (fun x hx => hl x (by simp [hx])) hc

theorem hexDecode_hexEncode {l : List Nat} (hl : ∀ b ∈ l, b < 256) :
    hexDecode (hexEncode l) = l := by
  induction l with
  | nil => rfl
  | cons b rest ih =>
      have hb : b < 256 := hl b (by simp)
      have h1 : hexVal (hexDigit (b / 16)) = some (b / 16) :=
        hexVal_hexDigit _ (by omega)
      have h2 : hexVal (hexDigit (b % 16)) = some (b % 16) :=
        hexVal_hexDigit _ (by omega)
      have h3 : hexDecode (hexEncode rest) = rest :=
        ih (fun x hx => hl x (by simp [hx]))
      show hexDecode (hexDigit (b / 16) :: hexDigit (b % 16) :: hexEncode rest)
        = b :: rest
      unfold hexDecode
      rw [h1, h2, h3]
      have : 16 * (b / 16) + b % 16 = b := by omega
      simp [this]

/-- On a string of valid hex digits the decoding consumes exactly the
pairs, so the output has half the (rounded-down) length. -/
theorem hexDecode_length_valid : ∀ (l : List Nat),
    (∀ c ∈ l, (hexVal c).isSome = true) →
    (hexDecode l).length = l.length / 2
  | [], _ => rfl
  | [c], _ => by simp [hexDecode]
  | c1 :: c2 :: rest, h => by
      obtain ⟨v1, hv1⟩ := Option.isSome_iff_exists.mp (h c1 (by simp))
      obtain ⟨v2, hv2⟩ := Option.isSome_iff_exists.mp (h c2 (by simp))
      have ih := hexDecode_length_valid rest (fun c hc => h c (by simp [hc]))
      show (match hexVal c1, hexVal c2 with
        | some hi, some lo => (16 * hi + lo) :: hexDecode rest
        | _, _ => []).length = (c1 :: c2 :: rest).length / 2
      rw [hv1, hv2]
      show (hexDecode rest).length + 1 = (c1 :: c2 :: rest).length / 2
      simp only [List.length_cons]
      omega

/-- The node decoding stops at the first pair containing an invalid
character: an invalid character at position j truncates the output to at
most j / 2 bytes. -/
theorem hexDecode_invalid_le : ∀ (l : List Nat) (j : Nat) (hj : j < l.length),
    hexVal (l.get ⟨j, hj⟩) = none → (hexDecode l).length ≤ j / 2
  | [], j, hj, _ => by simp at hj
  | [c], _, _, _ => by
      show ([] : List Nat).length ≤ _
      simp
  | c1 :: c2 :: rest, 0, hj, hv => by
      have hv1 : hexVal c1 = none := hv
      show (match hexVal c1, hexVal c2 with
        | some hi, some lo => (16 * hi + lo) :: hexDecode rest
        | _, _ => []).length ≤ 0
      rw [hv1]
      simp
  | c1 :: c2 :: rest, 1, hj, hv => by
      have hv2 : hexVal c2 = none := hv
      show (match hexVal c1, hexVal c2 with
        | some hi, some lo => (16 * hi + lo) :: hexDecode rest
        | _, _ => []).length ≤ 0
      rw [hv2]
      rcases hexVal c1 with _ | v <;> simp
  | c1 :: c2 :: rest, j + 2, hj, hv => by
      have hj' : j < rest.length := by
        simp only [List.length_cons] at hj
        omega
      have ih := hexDecode_invalid_le rest j hj' hv
      show (match hexVal c1, hexVal c2 with
        | some hi, some lo => (16 * hi + lo) :: hexDecode rest
        | _, _ => []).length ≤ (j + 2) / 2
      rcases hexVal c1 with _ | v1 <;> rcases hexVal c2 with _ | v2 <;>
        simp only [List.length_cons, List.length_nil] <;> omega

theorem set_get_self {α : Type} : ∀ (l : List α) (i : Nat)
    (h : i < l.length), l.set i (l.get ⟨i, h⟩) = l
  | [], i, h => by simp at h
  | c :: t, 0, _ => rfl
  | c :: t, i + 1, h => by
      have h' : i < t.length := by
        simp only [List.length_cons] at h
        omega
      show c :: t.set i (t.get ⟨i, h'⟩) = c :: t
      rw [set_get_self t i h']

theorem splitOnByte_ne_nil (sep : Nat) (l : List Nat) :
    splitOnByte sep l ≠ [] := by
  cases l with
  | nil => simp [splitOnByte]
  | cons c rest =>
      unfold splitOnByte
      rcases splitOnByte sep rest with _ | ⟨h, t⟩
      · simp
      · split_ifs <;> simp

theorem splitOnByte_no_sep {sep : Nat} {l : List Nat}
    (h : ∀ c ∈ l, c ≠ sep) : splitOnByte sep l = [l] := by
  induction l with
  | nil => rfl
  | cons c rest ih =>
      have hrest := ih (fun x hx => h x (by simp [hx]))
      have hc : c ≠ sep := h c (by simp)
      simp [splitOnByte, hrest, hc]

theorem splitOnByte_append_sep {sep : Nat} {A rest : List Nat}
    (hA : ∀ c ∈ A, c ≠ sep) :
    splitOnByte sep (A ++ sep :: rest) = A :: splitOnByte sep rest := by
  induction A with
  | nil =>
      show splitOnByte sep (sep :: rest) = [] :: splitOnByte sep rest
      rcases hne : splitOnByte sep rest with _ | ⟨h1, t⟩
      · exact absurd hne (splitOnByte_ne_nil sep rest)
      · simp [splitOnByte, hne]
  | cons c A' ih =>
      have hih := ih (fun x hx => hA x (by simp [hx]))
      have hc : c ≠ sep := hA c (by simp)
      show splitOnByte sep (c :: (A' ++ sep :: rest)) = _
      simp [splitOnByte, hih, hc]

theorem ctrEncrypt_length (key iv : List Nat) :
    ∀ (i : Nat) (l : List Nat), (ctrEncrypt key iv i l).length = l.length
  | _, [] => rfl
  | i, b :: rest => by
      show (ctrEncrypt key iv (i + 1) rest).length + 1 = rest.length + 1
      rw [ctrEncrypt_length key iv (i + 1) rest]

theorem ctrEncrypt_involutive (key iv : List Nat) :
    ∀ (i : Nat) (l : List Nat),
      ctrEncrypt key iv i (ctrEncrypt key iv i l) = l
  | _, [] => rfl
  | i, b :: rest => by
      show ((b ^^^ keystreamByte key iv i) ^^^ keystreamByte key iv i)
          :: ctrEncrypt key iv (i + 1) (ctrEncrypt key iv (i + 1) rest)
        = b :: rest
      rw [ctrEncrypt_involutive key iv (i + 1) rest, Nat.xor_assoc,
        Nat.xor_self, Nat.xor_zero]

theorem ctrEncrypt_lt (key iv : List Nat) :
    ∀ (i : Nat) (l : List Nat), (∀ b ∈ l, b < 256) →
      ∀ b ∈ ctrEncrypt key iv i l, b < 256
  | _, [], _ => by simp [ctrEncrypt]
  | i, b :: rest, hl => by
      intro x hx
      simp only [ctrEncrypt, List.mem_cons] at hx
      rcases hx with rfl | hx
      · have h1 : b < 2 ^ 8 := by
          have := hl b (by simp)
          omega
        have h2 : keystreamByte key iv i < 2 ^ 8 := by
          have : keystreamByte key iv i < 256 := Nat.mod_lt _ (by omega)
          omega
        have := Nat.xor_lt_two_pow h1 h2
        omega
      · exact ctrEncrypt_lt key iv (i + 1) rest
          (fun y hy => hl y (by simp [hy])) x hx

theorem xorAll_lt {l : List Nat} (hl : ∀ b ∈ l, b < 256) : xorAll l < 256 := by
  induction l with
  | nil => simp [xorAll]
  | cons b rest ih =>
      have h1 : b < 2 ^ 8 := by
        have := hl b (by simp)
        omega
      have h2 : xorAll rest < 2 ^ 8 := by
        have := ih (fun y hy => hl y (by simp [hy]))
        omega
      show (b ^^^ xorAll rest) < 256
      have := Nat.xor_lt_two_pow h1 h2
      omega

theorem tagFn_lt (key iv ct : List Nat) (hiv : ∀ b ∈ iv, b < 256)
    (hct : ∀ b ∈ ct, b < 256) (hkey : ∀ b ∈ key, b < 256) :
    ∀ b ∈ tagFn key iv ct, b < 256 := by
  intro b hb
  have hx : xorAll (key ++ iv ++ ct) < 256 := by
    refine xorAll_lt ?_
    intro y hy
    rcases List.mem_append.mp hy with hy2 | hy2
    · rcases List.mem_append.mp hy2 with hy3 | hy3
      · exact hkey y hy3
      · exact hiv y hy3
    · exact hct y hy2
  simp only [tagFn, List.mem_append] at hb
  rcases hb with ((hb | hb) | hb) | hb
  · simp only [lenBytes8, List.mem_cons, List.not_mem_nil, or_false] at hb
    rcases hb with h | h | h | h | h | h | h | h <;>
      (rw [h]; exact Nat.mod_lt _ (by omega))
  · rw [List.mem_singleton] at hb
    rw [hb]
    exact hx
  · rw [List.mem_singleton] at hb
    rw [hb]
    exact Nat.mod_lt _ (by omega)
  · rw [List.mem_replicate] at hb
    omega

theorem tagFn_length (key iv ct : List Nat) : (tagFn key iv ct).length = 16 := by
  simp [tagFn, lenBytes8]

theorem lenBytes8_injective {a b : Nat} (ha : a < 2 ^ 64) (hb : b < 2 ^ 64)
    (h : lenBytes8 a = lenBytes8 b) : a = b := by
  simp only [lenBytes8, List.cons.injEq, and_true] at h
  obtain ⟨h7, h6, h5, h4, h3, h2, h1, h0⟩ := h
  norm_num at h7 h6 h5 h4 h3 h2 h1 ha hb
  omega

theorem xorAll_set : ∀ (l : List Nat) (k : Nat) (b : Nat)
    (hk : k < l.length),
    xorAll (l.set k b) = ((xorAll l) ^^^ (l.get ⟨k, hk⟩)) ^^^ b
  | [], k, b, hk => by simp at hk
  | a :: rest, 0, b, _ => by
      show (b ^^^ xorAll rest) = ((a ^^^ xorAll rest) ^^^ a) ^^^ b
      have h1 : (a ^^^ xorAll rest) ^^^ a = xorAll rest := by
        rw [Nat.xor_comm a (xorAll rest), Nat.xor_assoc, Nat.xor_self,
          Nat.xor_zero]
      rw [h1, Nat.xor_comm]
  | a :: rest, k + 1, b, hk => by
      have hk' : k < rest.length := by
        simp at hk
        omega
      show (a ^^^ xorAll (rest.set k b))
        = ((a ^^^ xorAll rest) ^^^ rest.get ⟨k, hk'⟩) ^^^ b
      rw [xorAll_set rest k b hk']
      simp [Nat.xor_assoc]

theorem xorAll_set_ne {l : List Nat} {k : Nat} {b : Nat} (hk : k < l.length)
    (hne : b ≠ l.get ⟨k, hk⟩) : xorAll (l.set k b) ≠ xorAll l := by
  rw [xorAll_set l k b hk]
  intro h
  have h2 : (xorAll l) ^^^ (((xorAll l) ^^^ (l.get ⟨k, hk⟩)) ^^^ b)
      = (xorAll l) ^^^ (xorAll l) := congrArg _ h
  rw [Nat.xor_self, ← Nat.xor_assoc, ← Nat.xor_assoc, Nat.xor_self,
    Nat.zero_xor] at h2
  have h4 := congrArg (fun t => (l.get ⟨k, hk⟩) ^^^ t) h2
  simp only [← Nat.xor_assoc, Nat.xor_self, Nat.zero_xor, Nat.xor_zero] at h4
  exact hne h4

theorem set_append_left {α : Type} : ∀ (l₁ l₂ : List α) (i : Nat) (a : α),
    i < l₁.length → (l₁ ++ l₂).set i a = l₁.set i a ++ l₂
  | [], _, i, a, h => by simp at h
  | _ :: _, _, 0, _, _ => rfl
  | c :: t, l₂, i + 1, a, h => by
      have h' : i < t.length := by
        simp at h
        omega
      show c :: (t ++ l₂).set i a = c :: (t.set i a ++ l₂)
      rw [set_append_left t l₂ i a h']

theorem set_append_right {α : Type} : ∀ (l₁ l₂ : List α) (i : Nat) (a : α),
    l₁.length ≤ i → (l₁ ++ l₂).set i a = l₁ ++ l₂.set (i - l₁.length) a
  | [], _, _, _, _ => by simp
  | c :: t, l₂, 0, a, h => by simp at h
  | c :: t, l₂, i + 1, a, h => by
      have h' : t.length ≤ i := by
        simp at h
        omega
      have hsub : i + 1 - (c :: t).length = i - t.length := by
        simp
      rw [hsub]
      show c :: (t ++ l₂).set i a = c :: (t ++ l₂.set (i - t.length) a)
      rw [set_append_right t l₂ i a h']

theorem get_append_left_own {α : Type} : ∀ (l₁ l₂ : List α) (i : Nat)
    (h : i < l₁.length) (h2 : i < (l₁ ++ l₂).length),
    (l₁ ++ l₂).get ⟨i, h2⟩ = l₁.get ⟨i, h⟩
  | [], _, i, h, _ => by simp at h
  | c :: t, l₂, 0, _, _ => rfl
  | c :: t, l₂, i + 1, h, h2 => by
      have h' : i < t.length := by
        simp at h
        omega
      show (t ++ l₂).get ⟨i, _⟩ = t.get ⟨i, h'⟩
      exact get_append_left_own t l₂ i h' _

theorem get_append_right_own {α : Type} : ∀ (l₁ l₂ : List α) (i : Nat)
    (h : l₁.length ≤ i) (h2 : i < (l₁ ++ l₂).length)
    (h3 : i - l₁.length < l₂.length),
    (l₁ ++ l₂).get ⟨i, h2⟩ = l₂.get ⟨i - l₁.length, h3⟩
  | [], _, i, _, h2, h3 => by
      simp only [List.nil_append]
      congr 1
  | c :: t, l₂, 0, h, _, _ => by simp at h
  | c :: t, l₂, i + 1, h, h2, h3 => by
      have h' : t.length ≤ i := by
        simp at h
        omega
      have h3' : i - t.length < l₂.length := by
        simp at h3
        omega
      show (t ++ l₂).get ⟨i, _⟩ = _
      rw [get_append_right_own t l₂ i h' _ h3']
      congr 1
      simp

theorem mem_set_sub {α : Type} : ∀ (l : List α) (i : Nat) (a x : α),
    x ∈ l.set i a → x = a ∨ x ∈ l
  | [], _, _, _, hx => by simp at hx
  | c :: t, 0, a, x, hx => by
      rcases List.mem_cons.mp hx with rfl | hx
      · exact Or.inl rfl
      · exact Or.inr (by simp [hx])
  | c :: t, i + 1, a, x, hx => by
      rcases List.mem_cons.mp hx with rfl | hx
      · exact Or.inr (by simp)
      · rcases mem_set_sub t i a x hx with h | h
        · exact Or.inl h
        · exact Or.inr (by simp [h])

theorem get_set_self_own {α : Type} : ∀ (l : List α) (i : Nat) (a : α)
    (h : i < l.length) (h2 : i < (l.set i a).length),
    (l.set i a).get ⟨i, h2⟩ = a
  | [], i, a, h, _ => by simp at h
  | c :: t, 0, a, _, _ => rfl
  | c :: t, i + 1, a, h, h2 => by
      have h' : i < t.length := by
        simp at h
        omega
      exact get_set_self_own t i a h' _

theorem set_ne_of_get_ne {α : Type} {l : List α} {i : Nat} {a : α}
    (h : i < l.length) (hne : a ≠ l.get ⟨i, h⟩) : l.set i a ≠ l := by
  intro heq
  have h2 : i < (l.set i a).length := by
    rw [List.length_set]
    exact h
  have hget := get_set_self_own l i a h h2
  have htrans := List.get_of_eq heq ⟨i, h2⟩
  rw [hget] at htrans
  exact hne htrans

theorem tagFn_parts {key iv1 ct1 iv2 ct2 : List Nat}
    (h : tagFn key iv1 ct1 = tagFn key iv2 ct2) :
    lenBytes8 ct1.length = lenBytes8 ct2.length
    ∧ xorAll (key ++ iv1 ++ ct1) = xorAll (key ++ iv2 ++ ct2)
    ∧ iv1.length % 256 = iv2.length % 256 := by
  unfold tagFn at h
  obtain ⟨h10, _⟩ := List.append_inj h (by simp [lenBytes8])
  obtain ⟨h9, hI⟩ := List.append_inj h10 (by simp [lenBytes8])
  obtain ⟨h8, hX⟩ := List.append_inj h9 (by simp [lenBytes8])
  refine ⟨h8, ?_, ?_⟩
  · simpa using hX
  · simpa using hI

theorem tagFn_ne_of_len {key iv1 ct1 iv2 ct2 : List Nat}
    (h1 : ct1.length < 2 ^ 64) (h2 : ct2.length < 2 ^ 64)
    (hne : ct1.length ≠ ct2.length) :
    tagFn key iv1 ct1 ≠ tagFn key iv2 ct2 := by
  intro h
  exact hne (lenBytes8_injective h1 h2 (tagFn_parts h).1)

theorem tagFn_ne_of_xor {key iv1 ct1 iv2 ct2 : List Nat}
    (hne : xorAll (key ++ iv1 ++ ct1) ≠ xorAll (key ++ iv2 ++ ct2)) :
    tagFn key iv1 ct1 ≠ tagFn key iv2 ct2 := by
  intro h
  exact hne (tagFn_parts h).2.1

/-- Different nonce lengths give different tags: the modelled tag carries
the nonce length. -/
theorem tagFn_ne_of_ivlen {key iv1 ct1 iv2 ct2 : List Nat}
    (hne : iv1.length % 256 ≠ iv2.length % 256) :
    tagFn key iv1 ct1 ≠ tagFn key iv2 ct2 := by
  intro h
  exact hne (tagFn_parts h).2.2

/-- A candidate tag that is not 16 bytes long never equals the computed
tag. -/
theorem tagFn_ne_of_length {key iv ct tg : List Nat}
    (h : tg.length ≠ 16) : tagFn key iv ct ≠ tg := by
  intro he
  apply h
  rw [← he]
  exact tagFn_length key iv ct

theorem decryptS_eval (key s p1 p2 p3 : List Nat) (rest : List (List Nat))
    (hsplit : splitOnByte COLON s = p1 :: p2 :: p3 :: rest) :
    decryptS key s
      = if tagFn key (hexDecode p1) (hexDecode p3) = hexDecode p2
        then some (ctrEncrypt key (hexDecode p1) 0 (hexDecode p3))
        else none := by
  unfold decryptS
  rw [hsplit]

theorem decryptS_two (key s p1 p2 : List Nat)
    (hsplit : splitOnByte COLON s = [p1, p2]) : decryptS key s = none := by
  unfold decryptS
  rw [hsplit]

/-- Replacing one character of a hex encoding by another hex digit decodes
to the original bytes with one byte replaced; the replaced byte equals the
original exactly when the new character has the same value as the old one
(the position holds the digit of that value). -/
theorem hexDecode_encode_set : ∀ (l : List Nat), (∀ b ∈ l, b < 256) →
    ∀ (j : Nat) (hj : j < (hexEncode l).length) (b' v : Nat),
      hexVal b' = some v → ∀ (hj2 : j / 2 < l.length),
      ∃ nb, nb < 256
        ∧ hexDecode ((hexEncode l).set j b') = l.set (j / 2) nb
        ∧ (nb = l.get ⟨j / 2, hj2⟩
            ↔ (hexEncode l).get ⟨j, hj⟩ = hexDigit v) := by
  intro l
  induction l with
  | nil =>
      intro _ j hj
      simp [hexEncode] at hj
  | cons b rest ih =>
      intro hl j hj b' v hv hj2
      have hb : b < 256 := hl b (by simp)
      have hrest : ∀ x ∈ rest, x < 256 := fun x hx => hl x (by simp [hx])
      have hv16 : v < 16 := hexVal_lt hv
      match j with
      | 0 =>
          refine ⟨16 * v + b % 16, by omega, ?_, ?_⟩
          · show hexDecode (b' :: hexDigit (b % 16) :: hexEncode rest)
              = (16 * v + b % 16) :: rest
            unfold hexDecode
            rw [hv, hexVal_hexDigit _ (by omega), hexDecode_hexEncode hrest]
          · show 16 * v + b % 16 = b ↔ hexDigit (b / 16) = hexDigit v
            constructor
            · intro he
              have hveq : v = b / 16 := by omega
              rw [hveq]
            · intro he
              have := hexDigit_inj (by omega) hv16 he
              omega
      | 1 =>
          refine ⟨16 * (b / 16) + v, by omega, ?_, ?_⟩
          · show hexDecode (hexDigit (b / 16) :: b' :: hexEncode rest)
              = (16 * (b / 16) + v) :: rest
            unfold hexDecode
            rw [hv, hexVal_hexDigit _ (by omega), hexDecode_hexEncode hrest]
          · show 16 * (b / 16) + v = b ↔ hexDigit (b % 16) = hexDigit v
            constructor
            · intro he
              have hveq : v = b % 16 := by omega
              rw [hveq]
            · intro he
              have := hexDigit_inj (by omega) hv16 he
              omega
      | m + 2 =>
          have hj' : m < (hexEncode rest).length := by
            have := hj
            simp only [hexEncode, hexEncodeByte, List.cons_append,
              List.nil_append, List.length_cons] at this
            omega
          have hj2' : m / 2 < rest.length := by
            have := hj2
            simp only [List.length_cons] at this
            omega
          obtain ⟨nb, hnb256, hdec, hiff⟩ := ih hrest m hj' b' v hv hj2'
          refine ⟨nb, hnb256, ?_, ?_⟩
          · have hidx : (m + 2) / 2 = m / 2 + 1 := by omega
            rw [hidx]
            show hexDecode (hexDigit (b / 16) :: hexDigit (b % 16)
                :: (hexEncode rest).set m b')
              = b :: rest.set (m / 2) nb
            unfold hexDecode
            rw [hexVal_hexDigit _ (by omega), hexVal_hexDigit _ (by omega),
              hdec]
            show (16 * (b / 16) + b % 16) :: rest.set (m / 2) nb
              = b :: rest.set (m / 2) nb
            have hbeq : 16 * (b / 16) + b % 16 = b := by omega
            rw [hbeq]
          · have hfin : (⟨(m + 2) / 2, hj2⟩ : Fin (b :: rest).length)
                = ⟨m / 2 + 1, by
                    simp only [List.length_cons]
                    omega⟩ := Fin.ext (by
              show (m + 2) / 2 = m / 2 + 1
              omega)
            rw [hfin]
            show (nb = rest.get ⟨m / 2, hj2'⟩)
              ↔ ((hexEncode rest).get ⟨m, hj'⟩ = hexDigit v)
            exact hiff

theorem encryptS_assoc (key iv pt : List Nat) :
    encryptS key iv pt
      = hexEncode iv
        ++ (COLON :: (hexEncode (tagFn key iv (ctrEncrypt key iv 0 pt))
              ++ COLON :: hexEncode (ctrEncrypt key iv 0 pt))) := by
  simp [encryptS, List.append_assoc]

theorem encryptS_split (key iv pt : List Nat) (hkey : ∀ b ∈ key, b < 256)
    (hiv : ∀ b ∈ iv, b < 256) (hpt : ∀ b ∈ pt, b < 256) :
    splitOnByte COLON (encryptS key iv pt)
      = [hexEncode iv, hexEncode (tagFn key iv (ctrEncrypt key iv 0 pt)),
         hexEncode (ctrEncrypt key iv 0 pt)] := by
  have hct := ctrEncrypt_lt key iv 0 pt hpt
  have htag := tagFn_lt key iv (ctrEncrypt key iv 0 pt) hiv hct hkey
  rw [encryptS_assoc]
  rw [splitOnByte_append_sep (fun c hc => mem_hexEncode_ne_colon hiv hc)]
  rw [splitOnByte_append_sep (fun c hc => mem_hexEncode_ne_colon htag hc)]
  rw [splitOnByte_no_sep (fun c hc => mem_hexEncode_ne_colon hct hc)]

theorem decryptS_encryptS (key iv pt : List Nat) (hkey : ∀ b ∈ key, b < 256)
    (hiv : ∀ b ∈ iv, b < 256) (hpt : ∀ b ∈ pt, b < 256) :
    decryptS key (encryptS key iv pt) = some pt := by
  have hct := ctrEncrypt_lt key iv 0 pt hpt
  have htag := tagFn_lt key iv (ctrEncrypt key iv 0 pt) hiv hct hkey
  rw [decryptS_eval key _ _ _ _ []
    (encryptS_split key iv pt hkey hiv hpt)]
  rw [hexDecode_hexEncode hiv, hexDecode_hexEncode htag,
    hexDecode_hexEncode hct]
  rw [if_pos rfl, ctrEncrypt_involutive]

theorem tamper_colon1 (key iv pt : List Nat) (hkey : ∀ b ∈ key, b < 256)
    (hiv : ∀ b ∈ iv, b < 256) (hpt : ∀ b ∈ pt, b < 256) (b' : Nat)
    (hb : b' ≠ COLON) :
    decryptS key ((encryptS key iv pt).set (hexEncode iv).length b') = none := by
  have hct := ctrEncrypt_lt key iv 0 pt hpt
  have hT := tagFn_lt key iv (ctrEncrypt key iv 0 pt) hiv hct hkey
  rw [encryptS_assoc,
    set_append_right (hexEncode iv) _ (hexEncode iv).length b' (le_refl _),
    Nat.sub_self]
  show decryptS key (hexEncode iv
    ++ (b' :: (hexEncode (tagFn key iv (ctrEncrypt key iv 0 pt))
        ++ COLON :: hexEncode (ctrEncrypt key iv 0 pt)))) = none
  have hshape : hexEncode iv
      ++ (b' :: (hexEncode (tagFn key iv (ctrEncrypt key iv 0 pt))
          ++ COLON :: hexEncode (ctrEncrypt key iv 0 pt)))
    = (hexEncode iv ++ b' :: hexEncode (tagFn key iv (ctrEncrypt key iv 0 pt)))
      ++ COLON :: hexEncode (ctrEncrypt key iv 0 pt) := by
    simp
  rw [hshape]
  have hcf : ∀ c ∈ hexEncode iv
      ++ b' :: hexEncode (tagFn key iv (ctrEncrypt key iv 0 pt)),
      c ≠ COLON := by
    intro c hc
    rcases List.mem_append.mp hc with hc2 | hc2
    · exact mem_hexEncode_ne_colon hiv hc2
    · rcases List.mem_cons.mp hc2 with rfl | hc3
      · exact hb
      · exact mem_hexEncode_ne_colon hT hc3
  have hsp := @splitOnByte_append_sep COLON
    (hexEncode iv ++ b' :: hexEncode (tagFn key iv (ctrEncrypt key iv 0 pt)))
    (hexEncode (ctrEncrypt key iv 0 pt)) hcf
  rw [splitOnByte_no_sep (fun c hc => mem_hexEncode_ne_colon hct hc)] at hsp
  exact decryptS_two key _ _ _ hsp

theorem tamper_colon2 (key iv pt : List Nat) (hkey : ∀ b ∈ key, b < 256)
    (hiv : ∀ b ∈ iv, b < 256) (hpt : ∀ b ∈ pt, b < 256) (b' : Nat)
    (hb : b' ≠ COLON) :
    decryptS key ((encryptS key iv pt).set
      ((hexEncode iv).length + 1
        + (hexEncode (tagFn key iv (ctrEncrypt key iv 0 pt))).length) b')
      = none := by
  have hct := ctrEncrypt_lt key iv 0 pt hpt
  have hT := tagFn_lt key iv (ctrEncrypt key iv 0 pt) hiv hct hkey
  rw [encryptS_assoc, set_append_right (hexEncode iv) _ _ b' (by omega)]
  have h1 : (hexEncode iv).length + 1
      + (hexEncode (tagFn key iv (ctrEncrypt key iv 0 pt))).length
      - (hexEncode iv).length
    = (hexEncode (tagFn key iv (ctrEncrypt key iv 0 pt))).length + 1 := by
    omega
  rw [h1]
  show decryptS key (hexEncode iv ++ COLON ::
    ((hexEncode (tagFn key iv (ctrEncrypt key iv 0 pt))
      ++ COLON :: hexEncode (ctrEncrypt key iv 0 pt)).set
        (hexEncode (tagFn key iv (ctrEncrypt key iv 0 pt))).length b')) = none
  rw [set_append_right _ _ _ b' (le_refl _), Nat.sub_self]
  show decryptS key (hexEncode iv ++ COLON ::
    (hexEncode (tagFn key iv (ctrEncrypt key iv 0 pt))
      ++ b' :: hexEncode (ctrEncrypt key iv 0 pt))) = none
  have hcf : ∀ c ∈ hexEncode (tagFn key iv (ctrEncrypt key iv 0 pt))
      ++ b' :: hexEncode (ctrEncrypt key iv 0 pt), c ≠ COLON := by
    intro c hc
    rcases List.mem_append.mp hc with hc2 | hc2
    · exact mem_hexEncode_ne_colon hT hc2
    · rcases List.mem_cons.mp hc2 with rfl | hc3
      · exact hb
      · exact mem_hexEncode_ne_colon hct hc3
  have hsp := @splitOnByte_append_sep COLON (hexEncode iv)
    (hexEncode (tagFn key iv (ctrEncrypt key iv 0 pt))
      ++ b' :: hexEncode (ctrEncrypt key iv 0 pt))
    (fun c hc => mem_hexEncode_ne_colon hiv hc)
  rw [splitOnByte_no_sep hcf] at hsp
  exact decryptS_two key _ _ _ hsp

/-- Tampering one byte of the nonce hex region: a case flip of a hex
letter is accepted and decrypts to the original plaintext; every other
change makes decrypt fail. -/
theorem tamper_A (key iv pt : List Nat) (hkey : ∀ b ∈ key, b < 256)
    (hiv : ∀ b ∈ iv, b < 256) (hpt : ∀ b ∈ pt, b < 256)
    (hivlen : iv.length = 16) (j : Nat) (hj : j < (hexEncode iv).length)
    (b' : Nat) (hb : b' ≠ (hexEncode iv).get ⟨j, hj⟩) :
    (isCaseFlip ((hexEncode iv).get ⟨j, hj⟩) b' = false →
      decryptS key ((encryptS key iv pt).set j b') = none)
    ∧ (isCaseFlip ((hexEncode iv).get ⟨j, hj⟩) b' = true →
      decryptS key ((encryptS key iv pt).set j b') = some pt) := by
  have hct := ctrEncrypt_lt key iv 0 pt hpt
  have hT := tagFn_lt key iv (ctrEncrypt key iv 0 pt) hiv hct hkey
  have hAlen : (hexEncode iv).length = 32 := by
    rw [hexEncode_length, hivlen]
  have hj2 : j / 2 < iv.length := by omega
  have hcfB : ∀ c ∈ hexEncode (tagFn key iv (ctrEncrypt key iv 0 pt)),
      c ≠ COLON := fun c hc => mem_hexEncode_ne_colon hT hc
  have hcfC : ∀ c ∈ hexEncode (ctrEncrypt key iv 0 pt), c ≠ COLON :=
    fun c hc => mem_hexEncode_ne_colon hct hc
  have hset : (encryptS key iv pt).set j b'
      = (hexEncode iv).set j b'
        ++ COLON :: (hexEncode (tagFn key iv (ctrEncrypt key iv 0 pt))
          ++ COLON :: hexEncode (ctrEncrypt key iv 0 pt)) := by
    rw [encryptS_assoc, set_append_left _ _ _ _ hj]
  by_cases hcolon : b' = COLON
  · subst hcolon
    constructor
    · intro hfalse
      rw [hset, List.set_eq_take_cons_drop COLON hj]
      have hshape : ((hexEncode iv).take j
              ++ COLON :: (hexEncode iv).drop (j + 1))
            ++ COLON :: (hexEncode (tagFn key iv (ctrEncrypt key iv 0 pt))
              ++ COLON :: hexEncode (ctrEncrypt key iv 0 pt))
          = (hexEncode iv).take j
            ++ COLON :: ((hexEncode iv).drop (j + 1)
              ++ COLON :: (hexEncode (tagFn key iv (ctrEncrypt key iv 0 pt))
                ++ COLON :: hexEncode (ctrEncrypt key iv 0 pt))) := by
        simp
      rw [hshape]
      have hcfTake : ∀ c ∈ (hexEncode iv).take j, c ≠ COLON :=
        fun c hc => mem_hexEncode_ne_colon hiv (List.mem_of_mem_take hc)
      have hcfDrop : ∀ c ∈ (hexEncode iv).drop (j + 1), c ≠ COLON :=
        fun c hc => mem_hexEncode_ne_colon hiv (List.mem_of_mem_drop hc)
      have hsp : splitOnByte COLON ((hexEncode iv).take j
            ++ COLON :: ((hexEncode iv).drop (j + 1)
              ++ COLON :: (hexEncode (tagFn key iv (ctrEncrypt key iv 0 pt))
                ++ COLON :: hexEncode (ctrEncrypt key iv 0 pt))))
          = (hexEncode iv).take j :: (hexEncode iv).drop (j + 1)
            :: hexEncode (tagFn key iv (ctrEncrypt key iv 0 pt))
            :: [hexEncode (ctrEncrypt key iv 0 pt)] := by
        rw [@splitOnByte_append_sep COLON ((hexEncode iv).take j) _ hcfTake,
          @splitOnByte_append_sep COLON ((hexEncode iv).drop (j + 1)) _
            hcfDrop,
          @splitOnByte_append_sep COLON
            (hexEncode (tagFn key iv (ctrEncrypt key iv 0 pt))) _ hcfB,
          splitOnByte_no_sep hcfC]
      rw [decryptS_eval key _ _ _ _ _ hsp]
      have hvalid : ∀ c ∈ (hexEncode iv).drop (j + 1),
          (hexVal c).isSome = true :=
        fun c hc => mem_hexEncode_isSome hiv (List.mem_of_mem_drop hc)
      have hlen15 : (hexDecode ((hexEncode iv).drop (j + 1))).length
          ≠ 16 := by
        rw [hexDecode_length_valid _ hvalid, List.length_drop]
        omega
      rw [if_neg (tagFn_ne_of_length hlen15)]
    · intro htrue
      simp only [isCaseFlip, decide_eq_true_eq] at htrue
      unfold COLON at htrue
      omega
  · have hcfset : ∀ c ∈ (hexEncode iv).set j b', c ≠ COLON := by
      intro c hc
      rcases mem_set_sub _ _ _ _ hc with rfl | hc2
      · exact hcolon
      · exact mem_hexEncode_ne_colon hiv hc2
    have hsp : splitOnByte COLON ((hexEncode iv).set j b'
          ++ COLON :: (hexEncode (tagFn key iv (ctrEncrypt key iv 0 pt))
            ++ COLON :: hexEncode (ctrEncrypt key iv 0 pt)))
        = (hexEncode iv).set j b'
          :: hexEncode (tagFn key iv (ctrEncrypt key iv 0 pt))
          :: [hexEncode (ctrEncrypt key iv 0 pt)] := by
      rw [@splitOnByte_append_sep COLON ((hexEncode iv).set j b') _ hcfset,
        @splitOnByte_append_sep COLON
          (hexEncode (tagFn key iv (ctrEncrypt key iv 0 pt))) _ hcfB,
        splitOnByte_no_sep hcfC]
    rcases hval : hexVal b' with _ | v
    · constructor
      · intro hfalse
        rw [hset, decryptS_eval key _ _ _ _ _ hsp, hexDecode_hexEncode hT,
          hexDecode_hexEncode hct]
        have hjset : j < ((hexEncode iv).set j b').length := by
          rw [List.length_set]
          exact hj
        have hgetset : ((hexEncode iv).set j b').get ⟨j, hjset⟩ = b' :=
          get_set_self_own _ _ _ hj _
        have htrunc := hexDecode_invalid_le ((hexEncode iv).set j b') j
          hjset (by rw [hgetset]; exact hval)
        have hivne : (hexDecode ((hexEncode iv).set j b')).length % 256
            ≠ iv.length % 256 := by
          rw [hivlen]
          omega
        rw [if_neg (tagFn_ne_of_ivlen hivne)]
      · intro htrue
        simp only [isCaseFlip, decide_eq_true_eq] at htrue
        obtain ⟨h97, h102, h32⟩ := htrue
        have hsome : hexVal b'
            = some ((hexEncode iv).get ⟨j, hj⟩ - 87) := by
          unfold hexVal
          rw [if_neg (by omega), if_neg (by omega), if_pos (by omega)]
          congr 1
          omega
        rw [hval] at hsome
        exact Option.noConfusion hsome
    · obtain ⟨nb, hnb256, hdec, hiff⟩ := hexDecode_encode_set iv hiv j hj
        b' v hval hj2
      have hv16 : v < 16 := hexVal_lt hval
      constructor
      · intro hflip
        rw [hset, decryptS_eval key _ _ _ _ _ hsp, hexDecode_hexEncode hT,
          hexDecode_hexEncode hct, hdec]
        have hnbne : nb ≠ iv.get ⟨j / 2, hj2⟩ := by
          intro hnbeq
          have hcharv : (hexEncode iv).get ⟨j, hj⟩ = hexDigit v :=
            hiff.mp hnbeq
          rcases hexVal_some_cases hv16 hval with hcase | ⟨h10, h32⟩
          · exact hb (by rw [hcharv]; exact hcase)
          · have hdig : hexDigit v = 87 + v := by
              unfold hexDigit
              rw [if_neg (by omega)]
            have htrue : isCaseFlip ((hexEncode iv).get ⟨j, hj⟩) b'
                = true := by
              simp only [isCaseFlip, decide_eq_true_eq]
              rw [hcharv, hdig]
              rw [hdig] at h32
              omega
            rw [hflip] at htrue
            exact Bool.noConfusion htrue
        have hlt : key.length + j / 2 < (key ++ iv).length := by
          rw [List.length_append]
          omega
        have hgetlt : key.length + j / 2
            < ((key ++ iv) ++ ctrEncrypt key iv 0 pt).length := by
          rw [List.length_append, List.length_append]
          omega
        have hidx : key.length + j / 2 - key.length = j / 2 := by omega
        have hsetA : (key ++ iv).set (key.length + j / 2) nb
            = key ++ iv.set (j / 2) nb := by
          rw [set_append_right key iv _ nb (by omega), hidx]
        have hsetB : (key ++ iv.set (j / 2) nb) ++ ctrEncrypt key iv 0 pt
            = ((key ++ iv) ++ ctrEncrypt key iv 0 pt).set
                (key.length + j / 2) nb := by
          rw [set_append_left (key ++ iv) (ctrEncrypt key iv 0 pt) _ nb hlt,
            hsetA]
        have h3 : key.length + j / 2 - key.length < iv.length := by omega
        have hgg : ((key ++ iv) ++ ctrEncrypt key iv 0 pt).get
              ⟨key.length + j / 2, hgetlt⟩ = iv.get ⟨j / 2, hj2⟩ := by
          rw [get_append_left_own (key ++ iv) (ctrEncrypt key iv 0 pt) _ hlt
            hgetlt]
          rw [get_append_right_own key iv _ (by omega) hlt h3]
          congr 1
          exact Fin.ext hidx
        have hxor : xorAll (key ++ iv.set (j / 2) nb
              ++ ctrEncrypt key iv 0 pt)
            ≠ xorAll (key ++ iv ++ ctrEncrypt key iv 0 pt) := by
          rw [hsetB]
          refine xorAll_set_ne hgetlt ?_
          rw [hgg]
          exact hnbne
        have hcond : tagFn key (iv.set (j / 2) nb) (ctrEncrypt key iv 0 pt)
            ≠ tagFn key iv (ctrEncrypt key iv 0 pt) := tagFn_ne_of_xor hxor
        rw [if_neg hcond]
      · intro hflip
        simp only [isCaseFlip, decide_eq_true_eq] at hflip
        obtain ⟨h97, h102, h32⟩ := hflip
        have hsome : hexVal b'
            = some ((hexEncode iv).get ⟨j, hj⟩ - 87) := by
          unfold hexVal
          rw [if_neg (by omega), if_neg (by omega), if_pos (by omega)]
          congr 1
          omega
        rw [hval] at hsome
        have hveq : v = (hexEncode iv).get ⟨j, hj⟩ - 87 :=
          Option.some.inj hsome
        have hcharv : (hexEncode iv).get ⟨j, hj⟩ = hexDigit v := by
          unfold hexDigit
          rw [if_neg (by omega)]
          omega
        have hnbeq : nb = iv.get ⟨j / 2, hj2⟩ := hiff.mpr hcharv
        rw [hset, decryptS_eval key _ _ _ _ _ hsp, hexDecode_hexEncode hT,
          hexDecode_hexEncode hct, hdec, hnbeq,
          set_get_self iv (j / 2) hj2, if_pos rfl, ctrEncrypt_involutive]

/-- Tampering one byte of the tag hex region: a case flip of a hex letter
is accepted and decrypts to the original plaintext; every other change
makes decrypt fail. -/
theorem tamper_B (key iv pt : List Nat) (hkey : ∀ b ∈ key, b < 256)
    (hiv : ∀ b ∈ iv, b < 256) (hpt : ∀ b ∈ pt, b < 256) (j : Nat)
    (hj : j < (hexEncode (tagFn key iv (ctrEncrypt key iv 0 pt))).length)
    (b' : Nat)
    (hb : b' ≠ (hexEncode (tagFn key iv (ctrEncrypt key iv 0 pt))).get
      ⟨j, hj⟩) :
    (isCaseFlip ((hexEncode (tagFn key iv (ctrEncrypt key iv 0 pt))).get
        ⟨j, hj⟩) b' = false →
      decryptS key ((encryptS key iv pt).set
        ((hexEncode iv).length + 1 + j) b') = none)
    ∧ (isCaseFlip ((hexEncode (tagFn key iv (ctrEncrypt key iv 0 pt))).get
        ⟨j, hj⟩) b' = true →
      decryptS key ((encryptS key iv pt).set
        ((hexEncode iv).length + 1 + j) b') = some pt) := by
  have hct := ctrEncrypt_lt key iv 0 pt hpt
  have hT := tagFn_lt key iv (ctrEncrypt key iv 0 pt) hiv hct hkey
  have hTlen : (tagFn key iv (ctrEncrypt key iv 0 pt)).length = 16 :=
    tagFn_length key iv (ctrEncrypt key iv 0 pt)
  have hBlen : (hexEncode (tagFn key iv (ctrEncrypt key iv 0 pt))).length
      = 32 := by
    rw [hexEncode_length, hTlen]
  have hj2 : j / 2 < (tagFn key iv (ctrEncrypt key iv 0 pt)).length := by
    omega
  have hcfA : ∀ c ∈ hexEncode iv, c ≠ COLON :=
    fun c hc => mem_hexEncode_ne_colon hiv hc
  have hcfC : ∀ c ∈ hexEncode (ctrEncrypt key iv 0 pt), c ≠ COLON :=
    fun c hc => mem_hexEncode_ne_colon hct hc
  have hset : (encryptS key iv pt).set ((hexEncode iv).length + 1 + j) b'
      = hexEncode iv ++ COLON ::
          ((hexEncode (tagFn key iv (ctrEncrypt key iv 0 pt))).set j b'
            ++ COLON :: hexEncode (ctrEncrypt key iv 0 pt)) := by
    rw [encryptS_assoc, set_append_right (hexEncode iv) _ _ b' (by omega)]
    have hsub : (hexEncode iv).length + 1 + j - (hexEncode iv).length
        = j + 1 := by omega
    rw [hsub]
    show hexEncode iv ++ COLON ::
        ((hexEncode (tagFn key iv (ctrEncrypt key iv 0 pt))
          ++ COLON :: hexEncode (ctrEncrypt key iv 0 pt)).set j b') = _
    rw [set_append_left _ _ _ b' hj]
  by_cases hcolon : b' = COLON
  · subst hcolon
    constructor
    · intro hfalse
      rw [hset, List.set_eq_take_cons_drop COLON hj]
      have hshape : hexEncode iv ++ COLON ::
            (((hexEncode (tagFn key iv (ctrEncrypt key iv 0 pt))).take j
              ++ COLON :: (hexEncode (tagFn key iv
                  (ctrEncrypt key iv 0 pt))).drop (j + 1))
              ++ COLON :: hexEncode (ctrEncrypt key iv 0 pt))
          = hexEncode iv ++ COLON ::
            ((hexEncode (tagFn key iv (ctrEncrypt key iv 0 pt))).take j
              ++ COLON :: ((hexEncode (tagFn key iv
                  (ctrEncrypt key iv 0 pt))).drop (j + 1)
                ++ COLON :: hexEncode (ctrEncrypt key iv 0 pt))) := by
        simp
      rw [hshape]
      have hcfTake : ∀ c ∈ (hexEncode (tagFn key iv
          (ctrEncrypt key iv 0 pt))).take j, c ≠ COLON :=
        fun c hc => mem_hexEncode_ne_colon hT (List.mem_of_mem_take hc)
      have hcfDrop : ∀ c ∈ (hexEncode (tagFn key iv
          (ctrEncrypt key iv 0 pt))).drop (j + 1), c ≠ COLON :=
        fun c hc => mem_hexEncode_ne_colon hT (List.mem_of_mem_drop hc)
      have hsp : splitOnByte COLON (hexEncode iv ++ COLON ::
            ((hexEncode (tagFn key iv (ctrEncrypt key iv 0 pt))).take j
              ++ COLON :: ((hexEncode (tagFn key iv
                  (ctrEncrypt key iv 0 pt))).drop (j + 1)
                ++ COLON :: hexEncode (ctrEncrypt key iv 0 pt))))
          = hexEncode iv
            :: (hexEncode (tagFn key iv (ctrEncrypt key iv 0 pt))).take j
            :: (hexEncode (tagFn key iv
                (ctrEncrypt key iv 0 pt))).drop (j + 1)
            :: [hexEncode (ctrEncrypt key iv 0 pt)] := by
        rw [@splitOnByte_append_sep COLON (hexEncode iv) _ hcfA,
          @splitOnByte_append_sep COLON
            ((hexEncode (tagFn key iv (ctrEncrypt key iv 0 pt))).take j) _
            hcfTake,
          @splitOnByte_append_sep COLON
            ((hexEncode (tagFn key iv
              (ctrEncrypt key iv 0 pt))).drop (j + 1)) _ hcfDrop,
          splitOnByte_no_sep hcfC]
      rw [decryptS_eval key _ _ _ _ _ hsp]
      have hvalid : ∀ c ∈ (hexEncode (tagFn key iv
          (ctrEncrypt key iv 0 pt))).take j, (hexVal c).isSome = true :=
        fun c hc => mem_hexEncode_isSome hT (List.mem_of_mem_take hc)
      have hlen15 : (hexDecode ((hexEncode (tagFn key iv
          (ctrEncrypt key iv 0 pt))).take j)).length ≠ 16 := by
        rw [hexDecode_length_valid _ hvalid, List.length_take]
        omega
      rw [if_neg (tagFn_ne_of_length hlen15)]
    · intro htrue
      simp only [isCaseFlip, decide_eq_true_eq] at htrue
      unfold COLON at htrue
      omega
  · have hcfset : ∀ c ∈ (hexEncode (tagFn key iv
        (ctrEncrypt key iv 0 pt))).set j b', c ≠ COLON := by
      intro c hc
      rcases mem_set_sub _ _ _ _ hc with rfl | hc2
      · exact hcolon
      · exact mem_hexEncode_ne_colon hT hc2
    have hsp : splitOnByte COLON (hexEncode iv ++ COLON ::
          ((hexEncode (tagFn key iv (ctrEncrypt key iv 0 pt))).set j b'
            ++ COLON :: hexEncode (ctrEncrypt key iv 0 pt)))
        = hexEncode iv
          :: (hexEncode (tagFn key iv (ctrEncrypt key iv 0 pt))).set j b'
          :: [hexEncode (ctrEncrypt key iv 0 pt)] := by
      rw [@splitOnByte_append_sep COLON (hexEncode iv) _ hcfA,
        @splitOnByte_append_sep COLON
          ((hexEncode (tagFn key iv (ctrEncrypt key iv 0 pt))).set j b') _
          hcfset,
        splitOnByte_no_sep hcfC]
    rcases hval : hexVal b' with _ | v
    · constructor
      · intro hfalse
        rw [hset, decryptS_eval key _ _ _ _ _ hsp,
          hexDecode_hexEncode hiv, hexDecode_hexEncode hct]
        have hjset : j < ((hexEncode (tagFn key iv
            (ctrEncrypt key iv 0 pt))).set j b').length := by
          rw [List.length_set]
          exact hj
        have hgetset : ((hexEncode (tagFn key iv
            (ctrEncrypt key iv 0 pt))).set j b').get ⟨j, hjset⟩ = b' :=
          get_set_self_own _ _ _ hj _
        have htrunc := hexDecode_invalid_le ((hexEncode (tagFn key iv
          (ctrEncrypt key iv 0 pt))).set j b') j hjset
          (by rw [hgetset]; exact hval)
        have hlen15 : (hexDecode ((hexEncode (tagFn key iv
            (ctrEncrypt key iv 0 pt))).set j b')).length ≠ 16 := by
          omega
        rw [if_neg (tagFn_ne_of_length hlen15)]
      · intro htrue
        simp only [isCaseFlip, decide_eq_true_eq] at htrue
        obtain ⟨h97, h102, h32⟩ := htrue
        have hsome : hexVal b' = some ((hexEncode (tagFn key iv
            (ctrEncrypt key iv 0 pt))).get ⟨j, hj⟩ - 87) := by
          unfold hexVal
          rw [if_neg (by omega), if_neg (by omega), if_pos (by omega)]
          congr 1
          omega
        rw [hval] at hsome
        exact Option.noConfusion hsome
    · obtain ⟨nb, hnb256, hdec, hiff⟩ := hexDecode_encode_set
        (tagFn key iv (ctrEncrypt key iv 0 pt)) hT j hj b' v hval hj2
      have hv16 : v < 16 := hexVal_lt hval
      constructor
      · intro hflip
        rw [hset, decryptS_eval key _ _ _ _ _ hsp,
          hexDecode_hexEncode hiv, hexDecode_hexEncode hct, hdec]
        have hnbne : nb ≠ (tagFn key iv (ctrEncrypt key iv 0 pt)).get
            ⟨j / 2, hj2⟩ := by
          intro hnbeq
          have hcharv : (hexEncode (tagFn key iv
              (ctrEncrypt key iv 0 pt))).get ⟨j, hj⟩ = hexDigit v :=
            hiff.mp hnbeq
          rcases hexVal_some_cases hv16 hval with hcase | ⟨h10, h32⟩
          · exact hb (by rw [hcharv]; exact hcase)
          · have hdig : hexDigit v = 87 + v := by
              unfold hexDigit
              rw [if_neg (by omega)]
            have htrue : isCaseFlip ((hexEncode (tagFn key iv
                (ctrEncrypt key iv 0 pt))).get ⟨j, hj⟩) b' = true := by
              simp only [isCaseFlip, decide_eq_true_eq]
              rw [hcharv, hdig]
              rw [hdig] at h32
              omega
            rw [hflip] at htrue
            exact Bool.noConfusion htrue
        have hcond := Ne.symm (set_ne_of_get_ne hj2 hnbne)
        rw [if_neg hcond]
      · intro hflip
        simp only [isCaseFlip, decide_eq_true_eq] at hflip
        obtain ⟨h97, h102, h32⟩ := hflip
        have hsome : hexVal b' = some ((hexEncode (tagFn key iv
            (ctrEncrypt key iv 0 pt))).get ⟨j, hj⟩ - 87) := by
          unfold hexVal
          rw [if_neg (by omega), if_neg (by omega), if_pos (by omega)]
          congr 1
          omega
        rw [hval] at hsome
        have hveq : v = (hexEncode (tagFn key iv
            (ctrEncrypt key iv 0 pt))).get ⟨j, hj⟩ - 87 :=
          Option.some.inj hsome
        have hcharv : (hexEncode (tagFn key iv
            (ctrEncrypt key iv 0 pt))).get ⟨j, hj⟩ = hexDigit v := by
          unfold hexDigit
          rw [if_neg (by omega)]
          omega
        have hnbeq : nb = (tagFn key iv (ctrEncrypt key iv 0 pt)).get
            ⟨j / 2, hj2⟩ := hiff.mpr hcharv
        rw [hset, decryptS_eval key _ _ _ _ _ hsp,
          hexDecode_hexEncode hiv, hexDecode_hexEncode hct, hdec, hnbeq,
          set_get_self _ (j / 2) hj2, if_pos rfl, ctrEncrypt_involutive]

/-- Tampering one byte of the ciphertext hex region: a case flip of a hex
letter is accepted and decrypts to the original plaintext; every other
change makes decrypt fail. -/
theorem tamper_C (key iv pt : List Nat) (hkey : ∀ b ∈ key, b < 256)
    (hiv : ∀ b ∈ iv, b < 256) (hpt : ∀ b ∈ pt, b < 256)
    (hptlen : pt.length < 2 ^ 64) (j : Nat)
    (hj : j < (hexEncode (ctrEncrypt key iv 0 pt)).length) (b' : Nat)
    (hb : b' ≠ (hexEncode (ctrEncrypt key iv 0 pt)).get ⟨j, hj⟩) :
    (isCaseFlip ((hexEncode (ctrEncrypt key iv 0 pt)).get ⟨j, hj⟩) b'
        = false →
      decryptS key ((encryptS key iv pt).set
        ((hexEncode iv).length + 1
          + (hexEncode (tagFn key iv (ctrEncrypt key iv 0 pt))).length + 1
          + j) b') = none)
    ∧ (isCaseFlip ((hexEncode (ctrEncrypt key iv 0 pt)).get ⟨j, hj⟩) b'
        = true →
      decryptS key ((encryptS key iv pt).set
        ((hexEncode iv).length + 1
          + (hexEncode (tagFn key iv (ctrEncrypt key iv 0 pt))).length + 1
          + j) b') = some pt) := by
  have hct := ctrEncrypt_lt key iv 0 pt hpt
  have hT := tagFn_lt key iv (ctrEncrypt key iv 0 pt) hiv hct hkey
  have hctlen : (ctrEncrypt key iv 0 pt).length = pt.length :=
    ctrEncrypt_length key iv 0 pt
  have hClen : (hexEncode (ctrEncrypt key iv 0 pt)).length
      = 2 * (ctrEncrypt key iv 0 pt).length := hexEncode_length _
  have hj2 : j / 2 < (ctrEncrypt key iv 0 pt).length := by omega
  have hcfA : ∀ c ∈ hexEncode iv, c ≠ COLON :=
    fun c hc => mem_hexEncode_ne_colon hiv hc
  have hcfB : ∀ c ∈ hexEncode (tagFn key iv (ctrEncrypt key iv 0 pt)),
      c ≠ COLON := fun c hc => mem_hexEncode_ne_colon hT hc
  have hset : (encryptS key iv pt).set
      ((hexEncode iv).length + 1
        + (hexEncode (tagFn key iv (ctrEncrypt key iv 0 pt))).length + 1
        + j) b'
      = hexEncode iv ++ COLON ::
          (hexEncode (tagFn key iv (ctrEncrypt key iv 0 pt))
            ++ COLON :: ((hexEncode (ctrEncrypt key iv 0 pt)).set j b')) := by
    rw [encryptS_assoc, set_append_right (hexEncode iv) _ _ b' (by omega)]
    have hsub : (hexEncode iv).length + 1
        + (hexEncode (tagFn key iv (ctrEncrypt key iv 0 pt))).length + 1 + j
        - (hexEncode iv).length
      = ((hexEncode (tagFn key iv (ctrEncrypt key iv 0 pt))).length + 1 + j)
        + 1 := by omega
    rw [hsub]
    show hexEncode iv ++ COLON ::
        ((hexEncode (tagFn key iv (ctrEncrypt key iv 0 pt))
          ++ COLON :: hexEncode (ctrEncrypt key iv 0 pt)).set
            ((hexEncode (tagFn key iv (ctrEncrypt key iv 0 pt))).length + 1
              + j) b') = _
    rw [set_append_right _ _ _ b' (by omega)]
    have hsub2 : (hexEncode (tagFn key iv (ctrEncrypt key iv 0 pt))).length
        + 1 + j
        - (hexEncode (tagFn key iv (ctrEncrypt key iv 0 pt))).length
      = j + 1 := by omega
    rw [hsub2]
    rfl
  by_cases hcolon : b' = COLON
  · subst hcolon
    constructor
    · intro hfalse
      rw [hset, List.set_eq_take_cons_drop COLON hj]
      have hcfTake : ∀ c ∈ (hexEncode (ctrEncrypt key iv 0 pt)).take j,
          c ≠ COLON :=
        fun c hc => mem_hexEncode_ne_colon hct (List.mem_of_mem_take hc)
      have hcfDrop : ∀ c ∈ (hexEncode (ctrEncrypt key iv 0 pt)).drop
          (j + 1), c ≠ COLON :=
        fun c hc => mem_hexEncode_ne_colon hct (List.mem_of_mem_drop hc)
      have hsp : splitOnByte COLON (hexEncode iv ++ COLON ::
            (hexEncode (tagFn key iv (ctrEncrypt key iv 0 pt))
              ++ COLON :: ((hexEncode (ctrEncrypt key iv 0 pt)).take j
                ++ COLON :: (hexEncode (ctrEncrypt key iv 0 pt)).drop
                  (j + 1))))
          = hexEncode iv
            :: hexEncode (tagFn key iv (ctrEncrypt key iv 0 pt))
            :: (hexEncode (ctrEncrypt key iv 0 pt)).take j
            :: [(hexEncode (ctrEncrypt key iv 0 pt)).drop (j + 1)] := by
        rw [@splitOnByte_append_sep COLON (hexEncode iv) _ hcfA,
          @splitOnByte_append_sep COLON
            (hexEncode (tagFn key iv (ctrEncrypt key iv 0 pt))) _ hcfB,
          @splitOnByte_append_sep COLON
            ((hexEncode (ctrEncrypt key iv 0 pt)).take j) _ hcfTake,
          splitOnByte_no_sep hcfDrop]
      rw [decryptS_eval key _ _ _ _ _ hsp, hexDecode_hexEncode hiv,
        hexDecode_hexEncode hT]
      have hvalid : ∀ c ∈ (hexEncode (ctrEncrypt key iv 0 pt)).take j,
          (hexVal c).isSome = true :=
        fun c hc => mem_hexEncode_isSome hct (List.mem_of_mem_take hc)
      have hcond : tagFn key iv
          (hexDecode ((hexEncode (ctrEncrypt key iv 0 pt)).take j))
          ≠ tagFn key iv (ctrEncrypt key iv 0 pt) := by
        refine tagFn_ne_of_len ?_ ?_ ?_
        · rw [hexDecode_length_valid _ hvalid, List.length_take]
          omega
        · omega
        · rw [hexDecode_length_valid _ hvalid, List.length_take]
          omega
      rw [if_neg hcond]
    · intro htrue
      simp only [isCaseFlip, decide_eq_true_eq] at htrue
      unfold COLON at htrue
      omega
  · have hcfset : ∀ c ∈ (hexEncode (ctrEncrypt key iv 0 pt)).set j b',
        c ≠ COLON := by
      intro c hc
      rcases mem_set_sub _ _ _ _ hc with rfl | hc2
      · exact hcolon
      · exact mem_hexEncode_ne_colon hct hc2
    have hsp : splitOnByte COLON (hexEncode iv ++ COLON ::
          (hexEncode (tagFn key iv (ctrEncrypt key iv 0 pt))
            ++ COLON :: ((hexEncode (ctrEncrypt key iv 0 pt)).set j b')))
        = hexEncode iv
          :: hexEncode (tagFn key iv (ctrEncrypt key iv 0 pt))
          :: [(hexEncode (ctrEncrypt key iv 0 pt)).set j b'] := by
      rw [@splitOnByte_append_sep COLON (hexEncode iv) _ hcfA,
        @splitOnByte_append_sep COLON
          (hexEncode (tagFn key iv (ctrEncrypt key iv 0 pt))) _ hcfB,
        splitOnByte_no_sep hcfset]
    rcases hval : hexVal b' with _ | v
    · constructor
      · intro hfalse
        rw [hset, decryptS_eval key _ _ _ _ _ hsp,
          hexDecode_hexEncode hiv, hexDecode_hexEncode hT]
        have hjset : j < ((hexEncode (ctrEncrypt key iv 0 pt)).set
            j b').length := by
          rw [List.length_set]
          exact hj
        have hgetset : ((hexEncode (ctrEncrypt key iv 0 pt)).set j b').get
            ⟨j, hjset⟩ = b' := get_set_self_own _ _ _ hj _
        have htrunc := hexDecode_invalid_le
          ((hexEncode (ctrEncrypt key iv 0 pt)).set j b') j hjset
          (by rw [hgetset]; exact hval)
        have hcond : tagFn key iv
            (hexDecode ((hexEncode (ctrEncrypt key iv 0 pt)).set j b'))
            ≠ tagFn key iv (ctrEncrypt key iv 0 pt) := by
          refine tagFn_ne_of_len ?_ ?_ ?_
          · omega
          · omega
          · omega
        rw [if_neg hcond]
      · intro htrue
        simp only [isCaseFlip, decide_eq_true_eq] at htrue
        obtain ⟨h97, h102, h32⟩ := htrue
        have hsome : hexVal b' = some ((hexEncode
            (ctrEncrypt key iv 0 pt)).get ⟨j, hj⟩ - 87) := by
          unfold hexVal
          rw [if_neg (by omega), if_neg (by omega), if_pos (by omega)]
          congr 1
          omega
        rw [hval] at hsome
        exact Option.noConfusion hsome
    · obtain ⟨nb, hnb256, hdec, hiff⟩ := hexDecode_encode_set
        (ctrEncrypt key iv 0 pt) hct j hj b' v hval hj2
      have hv16 : v < 16 := hexVal_lt hval
      constructor
      · intro hflip
        rw [hset, decryptS_eval key _ _ _ _ _ hsp,
          hexDecode_hexEncode hiv, hexDecode_hexEncode hT, hdec]
        have hnbne : nb ≠ (ctrEncrypt key iv 0 pt).get ⟨j / 2, hj2⟩ := by
          intro hnbeq
          have hcharv : (hexEncode (ctrEncrypt key iv 0 pt)).get ⟨j, hj⟩
              = hexDigit v := hiff.mp hnbeq
          rcases hexVal_some_cases hv16 hval with hcase | ⟨h10, h32⟩
          · exact hb (by rw [hcharv]; exact hcase)
          · have hdig : hexDigit v = 87 + v := by
              unfold hexDigit
              rw [if_neg (by omega)]
            have htrue : isCaseFlip ((hexEncode
                (ctrEncrypt key iv 0 pt)).get ⟨j, hj⟩) b' = true := by
              simp only [isCaseFlip, decide_eq_true_eq]
              rw [hcharv, hdig]
              rw [hdig] at h32
              omega
            rw [hflip] at htrue
            exact Bool.noConfusion htrue
        have hgetlt : (key ++ iv).length + j / 2
            < ((key ++ iv) ++ ctrEncrypt key iv 0 pt).length := by
          simp only [List.length_append]
          omega
        have hidx : (key ++ iv).length + j / 2 - (key ++ iv).length
            = j / 2 := by omega
        have hsetB : key ++ iv ++ (ctrEncrypt key iv 0 pt).set (j / 2) nb
            = ((key ++ iv) ++ ctrEncrypt key iv 0 pt).set
                ((key ++ iv).length + j / 2) nb := by
          rw [set_append_right (key ++ iv) (ctrEncrypt key iv 0 pt) _ nb
            (by omega), hidx]
        have h3 : (key ++ iv).length + j / 2 - (key ++ iv).length
            < (ctrEncrypt key iv 0 pt).length := by omega
        have hgg : ((key ++ iv) ++ ctrEncrypt key iv 0 pt).get
              ⟨(key ++ iv).length + j / 2, hgetlt⟩
            = (ctrEncrypt key iv 0 pt).get ⟨j / 2, hj2⟩ := by
          rw [get_append_right_own (key ++ iv) (ctrEncrypt key iv 0 pt) _
            (by omega) hgetlt h3]
          congr 1
          exact Fin.ext hidx
        have hxor : xorAll (key ++ iv
              ++ (ctrEncrypt key iv 0 pt).set (j / 2) nb)
            ≠ xorAll (key ++ iv ++ ctrEncrypt key iv 0 pt) := by
          rw [hsetB]
          refine xorAll_set_ne hgetlt ?_
          rw [hgg]
          exact hnbne
        have hcond : tagFn key iv ((ctrEncrypt key iv 0 pt).set (j / 2) nb)
            ≠ tagFn key iv (ctrEncrypt key iv 0 pt) :=
          tagFn_ne_of_xor hxor
        rw [if_neg hcond]
      · intro hflip
        simp only [isCaseFlip, decide_eq_true_eq] at hflip
        obtain ⟨h97, h102, h32⟩ := hflip
        have hsome : hexVal b' = some ((hexEncode
            (ctrEncrypt key iv 0 pt)).get ⟨j, hj⟩ - 87) := by
          unfold hexVal
          rw [if_neg (by omega), if_neg (by omega), if_pos (by omega)]
          congr 1
          omega
        rw [hval] at hsome
        have hveq : v = (hexEncode (ctrEncrypt key iv 0 pt)).get
            ⟨j, hj⟩ - 87 := Option.some.inj hsome
        have hcharv : (hexEncode (ctrEncrypt key iv 0 pt)).get ⟨j, hj⟩
            = hexDigit v := by
          unfold hexDigit
          rw [if_neg (by omega)]
          omega
        have hnbeq : nb = (ctrEncrypt key iv 0 pt).get ⟨j / 2, hj2⟩ :=
          hiff.mpr hcharv
        rw [hset, decryptS_eval key _ _ _ _ _ hsp,
          hexDecode_hexEncode hiv, hexDecode_hexEncode hT, hdec, hnbeq,
          set_get_self _ (j / 2) hj2, if_pos rfl, ctrEncrypt_involutive]

theorem encryptS_get (key iv pt : List Nat) (hivlen : iv.length = 16)
    (i : Nat) (hi : i < (encryptS key iv pt).length) :
    (i = 32 → (encryptS key iv pt).get ⟨i, hi⟩ = COLON)
    ∧ (i = 65 → (encryptS key iv pt).get ⟨i, hi⟩ = COLON)
    ∧ (∀ (h2 : i < (hexEncode iv).length),
        (encryptS key iv pt).get ⟨i, hi⟩ = (hexEncode iv).get ⟨i, h2⟩)
    ∧ (∀ (h : 33 ≤ i) (h3 : i - 33
          < (hexEncode (tagFn key iv (ctrEncrypt key iv 0 pt))).length),
        (encryptS key iv pt).get ⟨i, hi⟩
          = (hexEncode (tagFn key iv (ctrEncrypt key iv 0 pt))).get
              ⟨i - 33, h3⟩)
    ∧ (∀ (h : 66 ≤ i) (h3 : i - 66
          < (hexEncode (ctrEncrypt key iv 0 pt)).length),
        (encryptS key iv pt).get ⟨i, hi⟩
          = (hexEncode (ctrEncrypt key iv 0 pt)).get ⟨i - 66, h3⟩) := by
  have hAlen : (hexEncode iv).length = 32 := by
    rw [hexEncode_length, hivlen]
  have hTlen : (tagFn key iv (ctrEncrypt key iv 0 pt)).length = 16 :=
    tagFn_length key iv (ctrEncrypt key iv 0 pt)
  have hBlen : (hexEncode (tagFn key iv (ctrEncrypt key iv 0 pt))).length
      = 32 := by
    rw [hexEncode_length, hTlen]
  have hEeq := encryptS_assoc key iv pt
  have hi2 : i < (hexEncode iv
      ++ (COLON :: (hexEncode (tagFn key iv (ctrEncrypt key iv 0 pt))
        ++ COLON :: hexEncode (ctrEncrypt key iv 0 pt)))).length := by
    rw [← hEeq]
    exact hi
  have hget := List.get_of_eq hEeq ⟨i, hi⟩
  refine ⟨?_, ?_, ?_, ?_, ?_⟩
  · intro h
    subst h
    rw [hget, get_append_right_own (hexEncode iv) _ 32 (by omega) hi2
      (by
        simp only [List.length_cons, List.length_append]
        omega)]
    rw [show (⟨32 - (hexEncode iv).length, by
        simp only [List.length_cons, List.length_append]
        omega⟩ : Fin (COLON :: (hexEncode (tagFn key iv
          (ctrEncrypt key iv 0 pt))
          ++ COLON :: hexEncode (ctrEncrypt key iv 0 pt))).length)
      = ⟨0, by simp⟩ from Fin.ext (by
        show 32 - (hexEncode iv).length = 0
        omega)]
    rfl
  · intro h
    subst h
    rw [hget, get_append_right_own (hexEncode iv) _ 65 (by omega) hi2
      (by
        simp only [List.length_cons, List.length_append]
        omega)]
    rw [show (⟨65 - (hexEncode iv).length, by
        simp only [List.length_cons, List.length_append]
        omega⟩ : Fin (COLON :: (hexEncode (tagFn key iv
          (ctrEncrypt key iv 0 pt))
          ++ COLON :: hexEncode (ctrEncrypt key iv 0 pt))).length)
      = ⟨32 + 1, by
          simp only [List.length_cons, List.length_append,
            List.length_cons]
          omega⟩ from Fin.ext (by
        show 65 - (hexEncode iv).length = 32 + 1
        omega)]
    show (hexEncode (tagFn key iv (ctrEncrypt key iv 0 pt))
      ++ COLON :: hexEncode (ctrEncrypt key iv 0 pt)).get ⟨32, by
        simp only [List.length_cons, List.length_append]
        omega⟩ = COLON
    rw [get_append_right_own
      (hexEncode (tagFn key iv (ctrEncrypt key iv 0 pt))) _ 32 (by omega) _
      (by
        simp only [List.length_cons, List.length_append]
        omega)]
    rw [show (⟨32 - (hexEncode (tagFn key iv
          (ctrEncrypt key iv 0 pt))).length, by
        simp only [List.length_cons, List.length_append]
        omega⟩ : Fin (COLON :: hexEncode (ctrEncrypt key iv 0 pt)).length)
      = ⟨0, by simp⟩ from Fin.ext (by
        show 32 - (hexEncode (tagFn key iv
          (ctrEncrypt key iv 0 pt))).length = 0
        omega)]
    rfl
  · intro h2
    rw [hget]
    exact get_append_left_own _ _ i h2 hi2
  · intro h h3
    rw [hget, get_append_right_own (hexEncode iv) _ i (by omega) hi2
      (by
        simp only [List.length_cons, List.length_append]
        omega)]
    rw [show (⟨i - (hexEncode iv).length, by
        simp only [List.length_cons, List.length_append]
        omega⟩ : Fin (COLON :: (hexEncode (tagFn key iv
          (ctrEncrypt key iv 0 pt))
          ++ COLON :: hexEncode (ctrEncrypt key iv 0 pt))).length)
      = ⟨(i - 33) + 1, by
          simp only [List.length_cons, List.length_append,
            List.length_cons]
          omega⟩ from Fin.ext (by
        show i - (hexEncode iv).length = (i - 33) + 1
        omega)]
    show (hexEncode (tagFn key iv (ctrEncrypt key iv 0 pt))
      ++ COLON :: hexEncode (ctrEncrypt key iv 0 pt)).get ⟨i - 33, by
        simp only [List.length_cons, List.length_append]
        omega⟩
      = (hexEncode (tagFn key iv (ctrEncrypt key iv 0 pt))).get ⟨i - 33, h3⟩
    exact get_append_left_own _ _ (i - 33) h3 _
  · intro h h3
    rw [hget, get_append_right_own (hexEncode iv) _ i (by omega) hi2
      (by
        simp only [List.length_cons, List.length_append]
        omega)]
    rw [show (⟨i - (hexEncode iv).length, by
        simp only [List.length_cons, List.length_append]
        omega⟩ : Fin (COLON :: (hexEncode (tagFn key iv
          (ctrEncrypt key iv 0 pt))
          ++ COLON :: hexEncode (ctrEncrypt key iv 0 pt))).length)
      = ⟨(i - 33) + 1, by
          simp only [List.length_cons, List.length_append,
            List.length_cons]
          omega⟩ from Fin.ext (by
        show i - (hexEncode iv).length = (i - 33) + 1
        omega)]
    show (hexEncode (tagFn key iv (ctrEncrypt key iv 0 pt))
      ++ COLON :: hexEncode (ctrEncrypt key iv 0 pt)).get ⟨i - 33, by
        simp only [List.length_cons, List.length_append]
        omega⟩
      = (hexEncode (ctrEncrypt key iv 0 pt)).get ⟨i - 66, h3⟩
    rw [get_append_right_own
      (hexEncode (tagFn key iv (ctrEncrypt key iv 0 pt))) _ (i - 33)
      (by omega)
      (by
        simp only [List.length_append, List.length_cons]
        omega)
      (by
        simp only [List.length_cons, List.length_append]
        omega)]
    rw [show (⟨i - 33 - (hexEncode (tagFn key iv
          (ctrEncrypt key iv 0 pt))).length, by
        simp only [List.length_cons, List.length_append]
        omega⟩ : Fin (COLON :: hexEncode (ctrEncrypt key iv 0 pt)).length)
      = ⟨(i - 66) + 1, by
          simp only [List.length_cons, List.length_append]
          omega⟩ from Fin.ext (by
        show i - 33 - (hexEncode (tagFn key iv
          (ctrEncrypt key iv 0 pt))).length = (i - 66) + 1
        omega)]
    rfl

/-- Claim C3 (corrected): with the AES-256-GCM primitive modelled from the
spec (an idealized authenticated cipher, node crypto not being part of
src/), decrypt of encrypt returns the original plaintext; the stored value
is the single string nonce_hex ":" tag_hex ":" ciphertext_hex with a
128-bit (16-byte) nonce and tag; and changing any single byte of the
stored string to any other value makes decrypt fail closed (`none`, the
IntegrityError of the spec) EXCEPT when the change is a pure case flip of
one lowercase hex letter to its uppercase form: the case-insensitive node
hex decoding then maps the tampered string to the same bytes and decrypt
succeeds, returning the original plaintext. -/
theorem secret_roundtrip_and_tamper (key iv pt : List Nat)
    (hkey : ∀ b ∈ key, b < 256) (hiv : ∀ b ∈ iv, b < 256)
    (hpt : ∀ b ∈ pt, b < 256) (hivlen : iv.length = 16)
    (hptlen : pt.length < 2 ^ 64) :
    decryptS key (encryptS key iv pt) = some pt
    ∧ encryptS key iv pt
        = hexEncode iv ++ [COLON]
          ++ hexEncode (tagFn key iv (ctrEncrypt key iv 0 pt)) ++ [COLON]
          ++ hexEncode (ctrEncrypt key iv 0 pt)
    ∧ (hexEncode iv).length = 2 * 16
    ∧ (tagFn key iv (ctrEncrypt key iv 0 pt)).length = 16
    ∧ (∀ (i : Nat) (hi : i < (encryptS key iv pt).length) (b' : Nat),
        b' ≠ (encryptS key iv pt).get ⟨i, hi⟩ →
        (isCaseFlip ((encryptS key iv pt).get ⟨i, hi⟩) b' = false →
          decryptS key ((encryptS key iv pt).set i b') = none)
        ∧ (isCaseFlip ((encryptS key iv pt).get ⟨i, hi⟩) b' = true →
          decryptS key ((encryptS key iv pt).set i b') = some pt)) := by
  refine ⟨decryptS_encryptS key iv pt hkey hiv hpt, rfl, ?_,
    tagFn_length key iv _, ?_⟩
  · rw [hexEncode_length, hivlen]
  · intro i hi b' hne
    have hAlen : (hexEncode iv).length = 32 := by
      rw [hexEncode_length, hivlen]
    have hBlen : (hexEncode (tagFn key iv (ctrEncrypt key iv 0 pt))).length
        = 32 := by
      rw [hexEncode_length, tagFn_length]
    have hctlen := ctrEncrypt_length key iv 0 pt
    have hClen : (hexEncode (ctrEncrypt key iv 0 pt)).length
        = 2 * pt.length := by
      rw [hexEncode_length, hctlen]
    have hElen : (encryptS key iv pt).length = 66 + 2 * pt.length := by
      rw [encryptS_assoc]
      simp only [List.length_append, List.length_cons]
      omega
    obtain ⟨hc1, hc2, hA, hB, hC⟩ := encryptS_get key iv pt hivlen i hi
    rcases Nat.lt_or_ge i 32 with h32 | h32
    · have hjA : i < (hexEncode iv).length := by omega
      rw [hA hjA] at hne ⊢
      exact tamper_A key iv pt hkey hiv hpt hivlen i hjA b' hne
    · rcases Nat.eq_or_lt_of_le h32 with h32e | h32l
      · rw [hc1 h32e.symm] at hne ⊢
        constructor
        · intro hfalse
          have hieq : i = (hexEncode iv).length := by omega
          rw [hieq]
          exact tamper_colon1 key iv pt hkey hiv hpt b' hne
        · intro htrue
          simp only [isCaseFlip, decide_eq_true_eq] at htrue
          unfold COLON at htrue
          omega
      · rcases Nat.lt_or_ge i 65 with h65 | h65
        · have h33 : 33 ≤ i := by omega
          have hjB : i - 33
              < (hexEncode (tagFn key iv
                  (ctrEncrypt key iv 0 pt))).length := by omega
          rw [hB h33 hjB] at hne ⊢
          have hieq : i = (hexEncode iv).length + 1 + (i - 33) := by omega
          have hres := tamper_B key iv pt hkey hiv hpt (i - 33) hjB b' hne
          rw [← hieq] at hres
          exact hres
        · rcases Nat.eq_or_lt_of_le h65 with h65e | h65l
          · rw [hc2 h65e.symm] at hne ⊢
            constructor
            · intro hfalse
              have hieq : i = (hexEncode iv).length + 1
                  + (hexEncode (tagFn key iv
                      (ctrEncrypt key iv 0 pt))).length := by omega
              rw [hieq]
              exact tamper_colon2 key iv pt hkey hiv hpt b' hne
            · intro htrue
              simp only [isCaseFlip, decide_eq_true_eq] at htrue
              unfold COLON at htrue
              omega
          · have h66 : 66 ≤ i := by omega
            have hjC : i - 66
                < (hexEncode (ctrEncrypt key iv 0 pt)).length := by omega
            rw [hC h66 hjC] at hne ⊢
            have hieq : i = (hexEncode iv).length + 1
                + (hexEncode (tagFn key iv
                    (ctrEncrypt key iv 0 pt))).length + 1 + (i - 66) := by
              omega
            have hres := tamper_C key iv pt hkey hiv hpt hptlen (i - 66)
              hjC b' hne
            rw [← hieq] at hres
            exact hres

/-- Witness for the C3 theorem at concrete inputs: the round trip on a
two-byte plaintext; a one-byte tamper of a digit character failing
closed; and a case-flip tamper of a lowercase hex letter being accepted
with the original plaintext. -/
theorem secret_roundtrip_and_tamper_witness :
    decryptS [7] (encryptS [7] (List.replicate 16 10) [104, 105])
      = some [104, 105]
    ∧ decryptS [7]
        ((encryptS [7] (List.replicate 16 10) [104, 105]).set 0 103)
      = none
    ∧ decryptS [7]
        ((encryptS [7] (List.replicate 16 10) [104, 105]).set 1 65)
      = some [104, 105] := by
  have h := secret_roundtrip_and_tamper [7] (List.replicate 16 10)
    [104, 105] (by decide) (by decide) (by decide) (by decide)
    (by norm_num)
  refine ⟨h.1, ?_, ?_⟩
  · exact (h.2.2.2.2 0 (by decide) 103 (by decide)).1 (by decide)
  · exact (h.2.2.2.2 1 (by decide) 65 (by decide)).2 (by decide)

/-- C3 counterexample to the unqualified tamper property: flipping the
0x20 case bit of the hex letter at position 1 of the stored string (the
low nibble a of the first nonce byte 0x0a becomes A) is a single-bit
change producing a different stored string that decrypt accepts,
returning the original plaintext instead of failing with an
IntegrityError. -/
theorem case_flip_tamper_accepted :
    (encryptS [7] (List.replicate 16 10) [104]).set 1 65
      ≠ encryptS [7] (List.replicate 16 10) [104]
    ∧ decryptS [7] ((encryptS [7] (List.replicate 16 10) [104]).set 1 65)
      = some [104] := by
  constructor
  · decide
  · decide

end Secrets

namespace Supervisor

theorem recovery_contains_marker (env : PromptEnv) (e : Nat) :
    "RECOVERY CHECK".data <:+: (buildRecoveryPrompt env e).data :=
  ⟨("[" ++ env.nowIso ++ "] ").data,
   (recoveryPart1 ++ toString e ++ recoveryPart2 ++ env.projectName
     ++ "\n" ++ env.taskNote ++ recoveryPart3 ++ env.tmuxOutput
     ++ recoveryPart4 ++ env.psOutput ++ recoveryPart5 ++ env.diskOutput
     ++ recoveryPart6 ++ env.shortMem ++ recoveryPart7 ++ env.longMem
     ++ "\n\n" ++ env.directivesSection ++ recoveryPart8).data,
   by simp [buildRecoveryPrompt, String.data_append, List.append_assoc]⟩

theorem recovery_contains_tmux (env : PromptEnv) (e : Nat) :
    env.tmuxOutput.data <:+: (buildRecoveryPrompt env e).data :=
  ⟨("[" ++ env.nowIso ++ "] " ++ "RECOVERY CHECK" ++ recoveryPart1
     ++ toString e ++ recoveryPart2 ++ env.projectName ++ "\n"
     ++ env.taskNote ++ recoveryPart3).data,
   (recoveryPart4 ++ env.psOutput ++ recoveryPart5 ++ env.diskOutput
     ++ recoveryPart6 ++ env.shortMem ++ recoveryPart7 ++ env.longMem
     ++ "\n\n" ++ env.directivesSection ++ recoveryPart8).data,
   by simp [buildRecoveryPrompt, String.data_append, List.append_assoc]⟩

theorem recovery_contains_ps (env : PromptEnv) (e : Nat) :
    env.psOutput.data <:+: (buildRecoveryPrompt env e).data :=
  ⟨("[" ++ env.nowIso ++ "] " ++ "RECOVERY CHECK" ++ recoveryPart1
     ++ toString e ++ recoveryPart2 ++ env.projectName ++ "\n"
     ++ env.taskNote ++ recoveryPart3 ++ env.tmuxOutput
     ++ recoveryPart4).data,
   (recoveryPart5 ++ env.diskOutput ++ recoveryPart6 ++ env.shortMem
     ++ recoveryPart7 ++ env.longMem ++ "\n\n" ++ env.directivesSection
     ++ recoveryPart8).data,
   by simp [buildRecoveryPrompt, String.data_append, List.append_assoc]⟩

theorem recovery_contains_disk (env : PromptEnv) (e : Nat) :
    env.diskOutput.data <:+: (buildRecoveryPrompt env e).data :=
  ⟨("[" ++ env.nowIso ++ "] " ++ "RECOVERY CHECK" ++ recoveryPart1
     ++ toString e ++ recoveryPart2 ++ env.projectName ++ "\n"
     ++ env.taskNote ++ recoveryPart3 ++ env.tmuxOutput ++ recoveryPart4
     ++ env.psOutput ++ recoveryPart5).data,
   (recoveryPart6 ++ env.shortMem ++ recoveryPart7 ++ env.longMem
     ++ "\n\n" ++ env.directivesSection ++ recoveryPart8).data,
   by simp [buildRecoveryPrompt, String.data_append, List.append_assoc]⟩

/-- Claim C4: once the first prompt has been sent, a consecutive-empty
count of 20 or more triggers a full re-initialization (counters reset,
the initial full context prompt resent as if fresh); 10 to 19 yields the
recovery directive, which contains the literal text RECOVERY CHECK
together with the live tmux, process-listing and disk-usage outputs; and
5 to 9 yields the full context prompt again — the same builder used for
the very first prompt. -/
theorem recovery_escalation (e i : Nat) (env : PromptEnv) :
    (20 ≤ e → choosePrompt true e i env
      = ⟨.recoveryReset, buildFullPrompt env, true, 0, 0⟩)
    ∧ (10 ≤ e → e < 20 →
        choosePrompt true e i env
          = ⟨.recoveryDirective, buildRecoveryPrompt env e, true, e, i⟩
        ∧ "RECOVERY CHECK".data <:+: (buildRecoveryPrompt env e).data
        ∧ env.tmuxOutput.data <:+: (buildRecoveryPrompt env e).data
        ∧ env.psOutput.data <:+: (buildRecoveryPrompt env e).data
        ∧ env.diskOutput.data <:+: (buildRecoveryPrompt env e).data)
    ∧ (5 ≤ e → e < 10 → choosePrompt true e i env
        = ⟨.recoveryFull, buildFullPrompt env, true, e, i⟩)
    ∧ choosePrompt false e i env
      = ⟨.full, buildFullPrompt env, true, e, i⟩ := by
  refine ⟨?_, ?_, ?_, ?_⟩
  · intro h20
    unfold choosePrompt
    rw [if_neg (by simp), if_pos (by
      show RECOVERY_RESET_THRESHOLD ≤ e
      unfold RECOVERY_RESET_THRESHOLD
      omega)]
  · intro h10 h20
    refine ⟨?_, recovery_contains_marker env e, recovery_contains_tmux env e,
      recovery_contains_ps env e, recovery_contains_disk env e⟩
    unfold choosePrompt
    rw [if_neg (by simp), if_neg (by
        show ¬ RECOVERY_RESET_THRESHOLD ≤ e
        unfold RECOVERY_RESET_THRESHOLD
        omega),
      if_pos (by
        show RECOVERY_DIRECTIVE_THRESHOLD ≤ e
        unfold RECOVERY_DIRECTIVE_THRESHOLD
        omega)]
  · intro h5 h10
    unfold choosePrompt
    rw [if_neg (by simp), if_neg (by
        show ¬ RECOVERY_RESET_THRESHOLD ≤ e
        unfold RECOVERY_RESET_THRESHOLD
        omega),
      if_neg (by
        show ¬ RECOVERY_DIRECTIVE_THRESHOLD ≤ e
        unfold RECOVERY_DIRECTIVE_THRESHOLD
        omega),
      if_pos (by
        show RECOVERY_FULL_THRESHOLD ≤ e
        unfold RECOVERY_FULL_THRESHOLD
        omega)]
  · unfold choosePrompt
    rw [if_pos (by simp)]

/-- Witness for the C4 theorem at concrete inputs: twelve consecutive
empty turns select the recovery directive, twenty-five a full reset, seven
the full prompt again. -/
theorem recovery_escalation_witness :
    choosePrompt true 12 0
        ⟨"t", "p", "", "", "", "", "", "", "", "", "", "", "", "", "tm",
         "ps", "df", "", "", "", "", false, false⟩
      = ⟨.recoveryDirective,
         buildRecoveryPrompt
           ⟨"t", "p", "", "", "", "", "", "", "", "", "", "", "", "", "tm",
            "ps", "df", "", "", "", "", false, false⟩ 12, true, 12, 0⟩
    ∧ choosePrompt true 25 0
        ⟨"t", "p", "", "", "", "", "", "", "", "", "", "", "", "", "tm",
         "ps", "df", "", "", "", "", false, false⟩
      = ⟨.recoveryReset,
         buildFullPrompt
           ⟨"t", "p", "", "", "", "", "", "", "", "", "", "", "", "", "tm",
            "ps", "df", "", "", "", "", false, false⟩, true, 0, 0⟩
    ∧ choosePrompt true 7 0
        ⟨"t", "p", "", "", "", "", "", "", "", "", "", "", "", "", "tm",
         "ps", "df", "", "", "", "", false, false⟩
      = ⟨.recoveryFull,
         buildFullPrompt
           ⟨"t", "p", "", "", "", "", "", "", "", "", "", "", "", "", "tm",
            "ps", "df", "", "", "", "", false, false⟩, true, 7, 0⟩ :=
  ⟨((recovery_escalation 12 0 _).2.1 (by norm_num) (by norm_num)).1,
   (recovery_escalation 25 0 _).1 (by norm_num),
   (recovery_escalation 7 0 _).2.2.1 (by norm_num) (by norm_num)⟩

end Supervisor

namespace Supervisor

/-- When a goal with a verify_command exists, `runVerification` makes
exactly one exec call: that command with a 30 s timeout in /workspace. -/
theorem runVerification_calls (ft : Task) (g : Goal) (cmd : String)
    (exec : String → Option String) (parseNum : String → Option ℚ)
    (hg : ft.goal = some g) (hcmd : g.verify_command = some cmd) :
    (runVerification ft exec parseNum).2 = [⟨cmd, 30000, "/workspace"⟩] := by
  cases hx : exec cmd with
  | none => simp [runVerification, hg, hcmd, hx]
  | some o =>
    cases hpv : parseNum o with
    | none => simp [runVerification, hg, hcmd, hx, hpv]
    | some v => simp [runVerification, hg, hcmd, hx, hpv]

/-- When the command output parses as a number, `runVerification` compares
it to target_value under direction (default below). -/
theorem runVerification_compare (ft : Task) (g : Goal) (cmd : String)
    (exec : String → Option String) (parseNum : String → Option ℚ)
    (t : ℚ) (o : String) (v : ℚ)
    (hg : ft.goal = some g) (hcmd : g.verify_command = some cmd)
    (ht : g.target_value = some t) (hx : exec cmd = some o)
    (hpv : parseNum o = some v) :
    (runVerification ft exec parseNum).1 =
      some ⟨if g.direction.getD Direction.below = Direction.below then
          decide (v < t) else decide (t < v), o, some v⟩ := by
  simp [runVerification, hg, hcmd, ht, hx, hpv]

/-- Branch-A reduction of `checkTaskCompletion`: the reloaded task is
completed and has a verify_command, so the outcome depends only on the
verification result. -/
theorem checkTaskCompletion_declared (task ft : Task) (g : Goal)
    (cmd : String) (res : VerifyResult) (cIdle : Nat) (now : ℚ)
    (exec : String → Option String) (parseNum : String → Option ℚ)
    (ptsv : Nat) (cls : Classification)
    (htask : task.status = TaskStatus.running)
    (hft : ft.status = TaskStatus.completed)
    (hg : ft.goal = some g) (hcmd : g.verify_command = some cmd)
    (hres : (runVerification ft exec parseNum).1 = some res) :
    checkTaskCompletion task (some ft) cIdle now exec parseNum ptsv cls =
      if res.passed then
        ⟨true, some (completeTask ft "agent_declared_verified" res.value
          now), true, true, (runVerification ft exec parseNum).2, ptsv⟩
      else
        ⟨false, some { ft with status := TaskStatus.running }, false, false,
          (runVerification ft exec parseNum).2, ptsv⟩ := by
  simp only [checkTaskCompletion, htask, hft, hg, hcmd, hres,
    Option.isSome_some, ne_eq, not_true_eq_false, if_false, ite_true,
    if_true]

/-- When the reloaded task is not agent-declared complete,
`checkTaskCompletion` reduces to branch B and the limit checks. -/
theorem checkTaskCompletion_not_declared (task : Task)
    (ftOpt : Option Task) (cIdle : Nat) (now : ℚ)
    (exec : String → Option String) (parseNum : String → Option ℚ)
    (ptsv : Nat) (cls : Classification)
    (htask : task.status = TaskStatus.running)
    (hft : ∀ ft, ftOpt = some ft → ft.status ≠ TaskStatus.completed) :
    checkTaskCompletion task ftOpt cIdle now exec parseNum ptsv cls =
      checkB task cIdle now exec parseNum ptsv cls := by
  cases ftOpt with
  | none => simp [checkTaskCompletion, htask]
  | some ft =>
    have h := hft ft rfl
    simp [checkTaskCompletion, htask, h]

/-- On non-productive turns branch B is skipped entirely. -/
theorem checkB_not_productive (task : Task) (cIdle : Nat) (now : ℚ)
    (exec : String → Option String) (parseNum : String → Option ℚ)
    (ptsv : Nat) (cls : Classification)
    (hcls : cls ≠ Classification.productive) :
    checkB task cIdle now exec parseNum ptsv cls =
      checkLimits task cIdle now none [] ptsv := by
  simp [checkB, hcls]

/-- C5: while a task is running, on turn end the supervisor stops it with
completion_reason idle_timeout, time_limit or turn_limit when the
corresponding limit is reached (max_idle_turns defaulting to 20; a zero or
absent time or turn limit disables the check, per JS truthiness), and when
the task file reloaded from disk is agent-declared completed and has a
verify_command, that command is executed once with a 30 s timeout in
/workspace, its stdout parsed as a number and compared to target_value
under direction (default below): on pass the task becomes completed with
latest_metric recorded and memory archived, on fail it is reverted to
status running. -/
theorem task_limits_and_verification
    (task : Task) (cIdle : Nat) (now : ℚ)
    (exec : String → Option String) (parseNum : String → Option ℚ)
    (ptsv : Nat) (cls : Classification)
    (htask : task.status = TaskStatus.running) :
    (∀ ft g cmd res, ft.status = TaskStatus.completed → ft.goal = some g →
      g.verify_command = some cmd →
      (runVerification ft exec parseNum).1 = some res →
      (checkTaskCompletion task (some ft) cIdle now exec parseNum ptsv
          cls).execCalls = [⟨cmd, 30000, "/workspace"⟩]
      ∧ (res.passed = true →
          checkTaskCompletion task (some ft) cIdle now exec parseNum ptsv cls
            = ⟨true, some (completeTask ft "agent_declared_verified"
                res.value now), true, true, [⟨cmd, 30000, "/workspace"⟩],
                ptsv⟩
          ∧ (completeTask ft "agent_declared_verified" res.value now).status
              = TaskStatus.completed
          ∧ (completeTask ft "agent_declared_verified" res.value
              now).completion_reason = some "agent_declared_verified"
          ∧ ∀ v, res.value = some v →
              (completeTask ft "agent_declared_verified" res.value
                now).progress.latest_metric = some v)
      ∧ (res.passed = false →
          checkTaskCompletion task (some ft) cIdle now exec parseNum ptsv cls
            = ⟨false, some { ft with status := TaskStatus.running }, false,
                false, [⟨cmd, 30000, "/workspace"⟩], ptsv⟩))
    ∧ (∀ ft g cmd t o v, ft.goal = some g → g.verify_command = some cmd →
        g.target_value = some t → exec cmd = some o → parseNum o = some v →
        (runVerification ft exec parseNum).1 =
          some ⟨if g.direction.getD Direction.below = Direction.below then
              decide (v < t) else decide (t < v), o, some v⟩)
    ∧ (∀ ftOpt, (∀ ft, ftOpt = some ft → ft.status ≠ TaskStatus.completed) →
        cls ≠ Classification.productive →
        (maxIdleOf task ≤ cIdle →
          checkTaskCompletion task ftOpt cIdle now exec parseNum ptsv cls
            = ⟨true, some (stopTask task "idle_timeout" now), true, true,
                [], ptsv⟩)
        ∧ (cIdle < maxIdleOf task → timeLimitHit task now = true →
            checkTaskCompletion task ftOpt cIdle now exec parseNum ptsv cls
              = ⟨true, some (stopTask task "time_limit" now), true, true,
                  [], ptsv⟩)
        ∧ (cIdle < maxIdleOf task → timeLimitHit task now = false →
            turnLimitHit task = true →
            checkTaskCompletion task ftOpt cIdle now exec parseNum ptsv cls
              = ⟨true, some (stopTask task "turn_limit" now), true, true,
                  [], ptsv⟩))
    ∧ (∀ r, (stopTask task r now).status = TaskStatus.stopped
        ∧ (stopTask task r now).completion_reason = some r)
    ∧ (task.limits = none → maxIdleOf task = 20)
    ∧ (∀ l, task.limits = some l →
        (l.max_idle_turns = none ∨ l.max_idle_turns = some 0 →
          maxIdleOf task = 20)
        ∧ (∀ n, l.max_idle_turns = some n → n ≠ 0 → maxIdleOf task = n)
        ∧ (∀ h st, l.max_duration_hours = some h → h ≠ 0 →
            task.started_at = some st →
            (timeLimitHit task now = true ↔
              h ≤ (now - st) / (1000 * 60 * 60)))
        ∧ (∀ n, l.max_turns = some n → n ≠ 0 →
            (turnLimitHit task = true ↔
              n ≤ task.progress.turns_completed))) := by
  refine ⟨?_, ?_, ?_, ?_, ?_, ?_⟩
  · intro ft g cmd res hft hg hcmd hres
    have hcalls := runVerification_calls ft g cmd exec parseNum hg hcmd
    have hred := checkTaskCompletion_declared task ft g cmd res cIdle now
      exec parseNum ptsv cls htask hft hg hcmd hres
    refine ⟨?_, ?_, ?_⟩
    · rw [hred]
      cases hp : res.passed <;> simp [hp, hcalls]
    · intro hp
      refine ⟨by rw [hred]; simp [hp, hcalls], by simp [completeTask],
        by simp [completeTask], ?_⟩
      intro v hv
      simp [completeTask, hv]
    · intro hp
      rw [hred]
      simp [hp, hcalls]
  · intro ft g cmd t o v hg hcmd ht hx hpv
    exact runVerification_compare ft g cmd exec parseNum t o v hg hcmd ht
      hx hpv
  · intro ftOpt hft hcls
    have hnd := checkTaskCompletion_not_declared task ftOpt cIdle now exec
      parseNum ptsv cls htask hft
    have hb := checkB_not_productive task cIdle now exec parseNum ptsv cls
      hcls
    refine ⟨?_, ?_, ?_⟩
    · intro hidle
      rw [hnd, hb]
      simp [checkLimits, hidle]
    · intro hlt htime
      have h1 : ¬ (maxIdleOf task ≤ cIdle) := by omega
      rw [hnd, hb]
      simp [checkLimits, h1, htime]
    · intro hlt htime hturn
      have h1 : ¬ (maxIdleOf task ≤ cIdle) := by omega
      rw [hnd, hb]
      simp [checkLimits, h1, htime, hturn]
  · intro r
    exact ⟨rfl, rfl⟩
  · intro hl
    simp [maxIdleOf, hl]
  · intro l hl
    refine ⟨?_, ?_, ?_, ?_⟩
    · intro hc
      cases hc with
      | inl hc => simp [maxIdleOf, hl, hc]
      | inr hc => simp [maxIdleOf, hl, hc]
    · intro n hn hne
      simp [maxIdleOf, hl, hn, hne]
    · intro h st hh hne hst
      simp [timeLimitHit, hl, hh, hne, hst]
    · intro n hn hne
      simp [turnLimitHit, hl, hn, hne]

/-- A concrete run: the declared-complete task passes verification (2 is
below the target 3) and completes with the metric recorded, and with the
idle-turn limit 2 reached and no agent declaration the task stops with
idle_timeout. -/
theorem task_limits_and_verification_witness :
    (checkTaskCompletion taskW (some ftW) 0 1000 execW parseW 0
        Classification.ok).execCalls = [⟨"make check", 30000, "/workspace"⟩]
    ∧ checkTaskCompletion taskW (some ftW) 0 1000 execW parseW 0
        Classification.ok
      = ⟨true, some (completeTask ftW "agent_declared_verified" (some 2)
          1000), true, true, [⟨"make check", 30000, "/workspace"⟩], 0⟩
    ∧ checkTaskCompletion taskW none 2 1000 execW parseW 0
        Classification.err
      = ⟨true, some (stopTask taskW "idle_timeout" 1000), true, true, [],
          0⟩ := by
  have hres : (runVerification ftW execW parseW).1
      = some ⟨true, "2", some 2⟩ := by decide
  obtain ⟨h1, _, _, _, _, _⟩ := task_limits_and_verification taskW 0 1000
    execW parseW 0 Classification.ok rfl
  obtain ⟨_, _, h3, _, _, _⟩ := task_limits_and_verification taskW 2 1000
    execW parseW 0 Classification.err rfl
  obtain ⟨hc, hp, _⟩ :=
    h1 ftW ⟨some "make check", some 3, none⟩ "make check"
      ⟨true, "2", some 2⟩ rfl rfl rfl hres
  refine ⟨hc, (hp rfl).1, ?_⟩
  exact (h3 none (by intro ft hft; cases hft) (by intro hx; cases hx)).1
    (by decide)

end Supervisor

namespace Supervisor

/-- In COMPLETED, `sendPrompt` returns at its first guard. -/
theorem sendPromptStep_completed (m : MState)
    (hm : m.state = SupState.COMPLETED)
    (tf : Option (Option TaskStatus)) : sendPromptStep m tf = m := by
  simp [sendPromptStep, hm]

/-- C10 counterexample: a pause control action moves the supervisor from
COMPLETED to PAUSED, so resume and a running task file are not the only
ways out of COMPLETED. -/
theorem completed_pause_exits :
    m0.state = SupState.COMPLETED
    ∧ (step m0 Event.controlPause).state = SupState.PAUSED
    ∧ (step m0 Event.controlPause).state ≠ SupState.COMPLETED := by
  refine ⟨rfl, rfl, ?_⟩
  intro h
  cases h

/-- C10 (amended): once in COMPLETED, sendPrompt refuses to send, no event
at all makes the supervisor send a prompt, and in particular losing and
re-establishing the Gateway connection (close, open, then a status
message) leaves it in COMPLETED with nothing sent; the exits from
COMPLETED are exactly: a pause control action, a resume control action
while the agent is busy, and a task-poll tick seeing the task back in
status running or the task file removed while humans are connected.  A
resume control action while the agent is idle only resets the recovery
counters and stays in COMPLETED. -/
theorem completed_state_stickiness (m : MState)
    (hm : m.state = SupState.COMPLETED) :
    (∀ tf, sendPromptStep m tf = m)
    ∧ (∀ e, (step m e).promptsSent = m.promptsSent)
    ∧ (∀ busy humans oc tf,
        (step (step (step m Event.wsClose) Event.wsOpen)
            (Event.statusMsg busy humans oc tf)).state = SupState.COMPLETED
        ∧ (step (step (step m Event.wsClose) Event.wsOpen)
            (Event.statusMsg busy humans oc tf)).promptsSent
            = m.promptsSent)
    ∧ (∀ e, (step m e).state ≠ SupState.COMPLETED ↔
        (e = Event.controlPause
         ∨ (m.agentBusy = true ∧ ∃ tf, e = Event.controlResume tf)
         ∨ (0 < m.humanCount ∧
             e = Event.taskPollTick (some (some TaskStatus.running)))
         ∨ (0 < m.humanCount ∧ e = Event.taskPollTick none)))
    ∧ (m.agentBusy = false → ∀ tf, step m (Event.controlResume tf)
        = { m with consecutiveEmpty := 0, consecutiveIdle := 0 }) := by
  refine ⟨fun tf => sendPromptStep_completed m hm tf, ?_, ?_, ?_, ?_⟩
  · intro e
    cases e with
    | wsOpen => simp [step]
    | wsClose => simp [step, hm]
    | statusMsg busy humans oc tf => simp [step, hm]
    | controlPause => simp [step]
    | controlResume tf =>
      cases hb : m.agentBusy with
      | true => simp [step, hm, hb]
      | false => simp [step, hm, hb, sendPromptStep]
    | taskPollTick tf =>
      match tf with
      | none =>
        by_cases hh : 0 < m.humanCount
        · simp [step, hm, hh]
        · simp [step, hm, hh, sendPromptStep]
      | some none => simp [step, hm]
      | some (some TaskStatus.running) =>
        by_cases hh : 0 < m.humanCount
        · simp [step, hm, hh]
        · simp [step, hm, hh, sendPromptStep]
      | some (some TaskStatus.stopped) => simp [step, hm]
      | some (some TaskStatus.completed) => simp [step, hm]
    | clientChange humans =>
      by_cases hc : 0 < humans ∧ m.humanCount = 0
      · simp [step, hm, hc]
      · simp [step, hm, hc]
  · intro busy humans oc tf
    constructor
    · simp [step, hm]
    · simp [step, hm]
  · intro e
    cases e with
    | wsOpen => simp [step, hm]
    | wsClose => simp [step, hm]
    | statusMsg busy humans oc tf => simp [step, hm]
    | controlPause => simp [step]
    | controlResume tf =>
      cases hb : m.agentBusy with
      | true => simp [step, hm, hb]
      | false => simp [step, hm, hb, sendPromptStep]
    | taskPollTick tf =>
      match tf with
      | none =>
        by_cases hh : 0 < m.humanCount
        · simp [step, hm, hh]
        · simp [step, hm, hh, sendPromptStep]
      | some none => simp [step, hm]
      | some (some TaskStatus.running) =>
        by_cases hh : 0 < m.humanCount
        · simp [step, hm, hh]
        · simp [step, hm, hh, sendPromptStep]
      | some (some TaskStatus.stopped) => simp [step, hm]
      | some (some TaskStatus.completed) => simp [step, hm]
    | clientChange humans =>
      by_cases hc : 0 < humans ∧ m.humanCount = 0
      · simp [step, hm, hc]
      · simp [step, hm, hc]
  · intro hb tf
    simp [step, hm, hb, sendPromptStep]

/-- A concrete COMPLETED supervisor: sendPrompt is a no-op, a connection
drop sends nothing, and a task-poll tick seeing the task running with no
humans connected still leaves COMPLETED with no prompt sent. -/
theorem completed_state_stickiness_witness :
    sendPromptStep m0 none = m0
    ∧ (step m0 Event.wsClose).promptsSent = m0.promptsSent
    ∧ ¬ ((step m0 (Event.taskPollTick (some (some TaskStatus.running)))).state
        ≠ SupState.COMPLETED) := by
  have h := completed_state_stickiness m0 rfl
  refine ⟨h.1 none, h.2.1 Event.wsClose, ?_⟩
  intro hne
  rcases (h.2.2.2.1 (Event.taskPollTick (some (some TaskStatus.running)))).mp
      hne with hc | ⟨hb, _⟩ | ⟨hh, _⟩ | ⟨hh, _⟩
  · cases hc
  · cases hb
  · cases hh
  · cases hh

end Supervisor
